import Mathlib

/-!
Verification development for the browser-bookmarks-classifier extension.

The definitions below are a shallow embedding of the classification engine:

* `src/utils/helpers.ts` — `sampleArray`, `batchArray`, `parsePath`,
  `flattenBookmarks`;
* `src/services/bookmarkService.ts` — `createFolderPath` / `getOrCreateFolder`
  over a flat store of bookmark nodes;
* `src/services/rulesService.ts` — `parseRules`, `matchRule`;
* `src/services/classifier.ts` — `runInitialization`, `_runInitialization`,
  `_classifySingleBookmark`, `_fetchBatchContent`, `_cleanupEmptyFolders`.

JavaScript strings are processed through char-list primitives (`jsSplit`,
`jsTrim`, `jsStartsWith`) that mirror `String.prototype.split` with a
one-character separator, `trim`, and `startsWith`; they are written by
structural recursion so that concrete runs reduce inside the kernel.

Asynchronous, effectful code is embedded as a state monad `M` over a clock
and an effect trace.  Every `await` of a collaborator call advances the
clock by one step; user cancellation is an abort time `T`: the signal's
`aborted` flag is set exactly at the clock times `≥ T`, which models a
single `AbortController` firing at an arbitrary suspension point of the
run.  Collaborator services (the Chrome bookmark store, the content
scrapers, the LLM client, the config store) are out of scope of the engine
and are represented by an `Oracle` of response functions, with the calls
recorded in the trace; progress-callback invocations carry no store effect
and are not recorded.  Within a classification window the source issues the
per-item tasks concurrently on the single JS thread; the embedding
linearizes a window in item order, which preserves the set of store
operations and their guard checks (item completion order is unspecified in
the source as well).
-/

namespace BookmarkClassifier

/-! ### JavaScript string primitives -/

/-- `split` on a one-character separator, on char lists.  The result is never
empty, matching `"".split(sep) == [""]` in JavaScript. -/
def splitChar (sep : Char) : List Char → List (List Char)
  | [] => [[]]
  | c :: cs =>
    match splitChar sep cs with
    | [] => [[c]]
    | h :: t => if c = sep then [] :: h :: t else (c :: h) :: t

/-- `String.prototype.split` with a one-character separator. -/
def jsSplit (sep : Char) (s : String) : List String :=
  (splitChar sep s.data).map String.mk

/-- Whitespace as removed by `String.prototype.trim`. -/
def jsIsSpace (c : Char) : Bool := c.isWhitespace

/-- `String.prototype.trim`. -/
def jsTrim (s : String) : String :=
  String.mk (((s.data.dropWhile jsIsSpace).reverse.dropWhile jsIsSpace).reverse)

/-- `String.prototype.startsWith` for a one-character pattern. -/
def jsStartsWith (c : Char) (s : String) : Bool :=
  match s.data with
  | [] => false
  | d :: _ => d = c

/-! ### Constants (`src/utils/constants.ts`) -/

def BACKUP_FOLDER_NAME : String := "Backup"

def FAILURES_FOLDER_NAME : String := "Failures"

def BATCH_SIZE : Nat := 5

/-! ### Helpers (`src/utils/helpers.ts`) -/

/-- `parsePath`: `path.split('/').filter(p => p.trim().length > 0)`. -/
def parsePath (path : String) : List String :=
  (jsSplit ('/') path).filter (fun p => 0 < (jsTrim p).length)

/-- The sample size computed by `sampleArray`:
`Math.max(1, Math.floor(array.length * rate))`.  The floor of `n * rate` is
computed on the rational's numerator and denominator so that it reduces in
the kernel; `sampleSize_eq_floor` below identifies it with
`max 1 ⌊n * rate⌋`. -/
def sampleSize (n : Nat) (r : ℚ) : Nat :=
  max 1 (Int.toNat ((n * r.num) / (r.den : Int)))

/-- `sampleArray`: shuffle a copy of the array and take the first
`sampleSize` elements.  The source shuffles with
`sort(() => Math.random() - 0.5)`, whose only guarantee is that the result
is some rearrangement of the input; the rearrangement is passed explicitly
as `shuffle`. -/
def sampleArray (shuffle : List α → List α) (array : List α) (rate : ℚ) : List α :=
  (shuffle array).take (sampleSize array.length rate)

/-- Fuel-driven body of `batchArray`; the fuel only serves termination and
`array.length` is always enough of it when the batch size is positive. -/
def batchArrayGo (size : Nat) : Nat → List α → List (List α)
  | 0, _ => []
  | fuel + 1, l => if l.isEmpty then [] else l.take size :: batchArrayGo size fuel (l.drop size)

/-- `batchArray`: chop a list into consecutive chunks of `batchSize`.
For `batchSize = 0` the source loop would never terminate; every caller in
the source passes a positive size. -/
def batchArray (array : List α) (batchSize : Nat) : List (List α) :=
  batchArrayGo batchSize array.length array

/-! ### Bookmark store and `createFolderPath`
(`src/services/bookmarkService.ts`)

The Chrome bookmark store is modelled flatly: a node has an id, a title, an
optional URL (absent for folders) and a parent id.  `chrome.bookmarks`
assigns fresh ids and appends created nodes after their siblings, which the
model renders as a `nextId` counter and appending to the node list. -/

structure BNode where
  id : Nat
  title : String
  url : Option String
  parentId : Nat
deriving DecidableEq, Repr

structure Store where
  nodes : List BNode
  nextId : Nat
deriving DecidableEq, Repr

/-- `isFolder` (`src/utils/helpers.ts`): a node with no URL. -/
def isFolder (n : BNode) : Bool := n.url.isNone

/-- `getBookmarksInFolder` / `chrome.bookmarks.getChildren`: the children of
a folder in sibling order. -/
def getChildren (s : Store) (parentId : Nat) : List BNode :=
  s.nodes.filter (fun n => n.parentId == parentId)

/-- `createFolder` / `chrome.bookmarks.create` for a folder node. -/
def createFolder (s : Store) (title : String) (parentId : Nat) : Store × BNode :=
  let node : BNode := ⟨s.nextId, title, none, parentId⟩
  (⟨s.nodes ++ [node], s.nextId + 1⟩, node)

/-- The loop body of `createFolderPath`: for each path part, reuse the first
existing child folder of that title, otherwise create it. -/
def createFolderPathGo : List String → Store → Nat → Store × Nat
  | [], s, parentId => (s, parentId)
  | part :: rest, s, parentId =>
    match (getChildren s parentId).find? (fun c => isFolder c && c.title == part) with
    | some existing => createFolderPathGo rest s existing.id
    | none =>
      let created := createFolder s part parentId
      createFolderPathGo rest created.1 created.2.id

/-- `createFolderPath`: resolve a slash-separated path below
`rootParentId`, creating missing segments, and return the deepest folder's
id together with the updated store. -/
def createFolderPath (s : Store) (path : String) (rootParentId : Nat) : Store × Nat :=
  createFolderPathGo (parsePath path) s rootParentId

/-- `getOrCreateFolder` simply delegates to `createFolderPath`. -/
def getOrCreateFolder (s : Store) (path : String) (rootParentId : Nat) : Store × Nat :=
  createFolderPath s path rootParentId

/-! ### Bookmark trees, `flattenBookmarks` and `_cleanupEmptyFolders` -/

/-- A bookmark-tree node as returned by `chrome.bookmarks.getTree`: a node
with a URL is a bookmark leaf (its `children` list is empty), a node
without one is a folder. -/
inductive BTree where
  | node (id : Nat) (title : String) (url : Option String) (children : List BTree)
deriving Repr

def BTree.id : BTree → Nat
  | .node i _ _ _ => i

def BTree.title : BTree → String
  | .node _ t _ _ => t

def BTree.url : BTree → Option String
  | .node _ _ u _ => u

def BTree.children : BTree → List BTree
  | .node _ _ _ cs => cs

mutual

/-- `traverse` inside `flattenBookmarks`: skip a folder whose title is
excluded (together with its whole subtree), record URL-bearing nodes, and
recurse into children.  The source's `isInExcluded` argument is always
`false` at every call site and an excluded folder returns before recursing,
so it is dropped here. -/
def flattenGo (exclude : List String) : BTree → List BTree
  | .node i t u cs =>
    if u.isNone && exclude.contains t then []
    else (if u.isSome then [BTree.node i t u cs] else []) ++ flattenGoL exclude cs

def flattenGoL (exclude : List String) : List BTree → List BTree
  | [] => []
  | c :: cs => flattenGo exclude c ++ flattenGoL exclude cs

end

/-- `flattenBookmarks`: all URL-bearing bookmarks of a forest, excluding
every subtree rooted at a folder whose title is in
`excludeFolderTitles`. -/
def flattenBookmarks (nodes : List BTree) (excludeFolderTitles : List String) : List BTree :=
  flattenGoL excludeFolderTitles nodes

/-- The per-child content test inside `_cleanupEmptyFolders`:
`child.url`, or a grandchild with a URL, or a great-grandchild with a URL.
Deeper URL-bearing descendants are not seen by this test. -/
def hasContentChild (child : BTree) : Bool :=
  if child.url.isSome then true
  else if 0 < child.children.length then
    child.children.any (fun c =>
      c.url.isSome || c.children.any (fun gc => gc.url.isSome))
  else false

mutual

/-- `findEmptyFolders`: collect (in discovery order) the ids of folders
judged empty — skipping excluded titles with their subtrees, never marking
the empty-titled folder — and recurse into children. -/
def findEmptyFolders (exclude : List String) : BTree → List Nat
  | .node i t u cs =>
    if u.isNone then
      if exclude.contains t then []
      else
        (if !(cs.any hasContentChild) && t ≠ ("") then [i] else []) ++
          findEmptyFoldersL exclude cs
    else []

def findEmptyFoldersL (exclude : List String) : List BTree → List Nat
  | [] => []
  | c :: cs => findEmptyFolders exclude c ++ findEmptyFoldersL exclude cs

end

/-- `_cleanupEmptyFolders`: run `findEmptyFolders` over the children of
each root of the tree and delete the collected folders in reverse
discovery order (each delete failure is logged and skipped).  The returned
list is the sequence of `removeTree` calls issued. -/
def cleanupEmptyFolders (tree : List BTree) (excludeFolders : List String) : List Nat :=
  (tree.flatMap (fun root => findEmptyFoldersL excludeFolders root.children)).reverse

mutual

/-- Whether some node of the tree, at any depth, is a URL-bearing bookmark.
This is the spec's notion of a non-empty folder («none of its descendants
at any depth is a URL-bearing bookmark»), stated here to compare against
the depth-limited test the source implements. -/
def specHasUrlDescendant : BTree → Bool
  | .node _ _ u cs => u.isSome || specHasUrlDescendantL cs

def specHasUrlDescendantL : List BTree → Bool
  | [] => false
  | t :: ts => specHasUrlDescendant t || specHasUrlDescendantL ts

end

/-! ### Rules (`src/services/rulesService.ts`)

`_evaluateRule` interprets a rule's condition text against the bookmark's
URL, title and fetched content through a family of regular-expression
matches; the regular-expression engine itself belongs to the JS runtime,
so condition evaluation is abstracted as a boolean function
`evalCond condition url title content`, and the one capture-group match of
`parseRules` as `lineMatch` returning the condition and category captures.
What remains — line filtering, first-match selection, and the
rule-before-LLM short-circuit — is embedded directly. -/

structure Rule where
  condition : String
  category : String
  raw : String
deriving DecidableEq, Repr

/-- `parseRules`: split the rule text into lines, keep trimmed lines that
start with `-` and match the rule pattern, and record the trimmed captures
plus the raw line. -/
def parseRules (lineMatch : String → Option (String × String)) (rulesText : String) :
    List Rule :=
  (jsSplit ('\n') rulesText).filterMap (fun line =>
    let trimmed := jsTrim line
    if trimmed.length = 0 then none
    else if !jsStartsWith ('-') trimmed then none
    else
      match lineMatch trimmed with
      | some cap => some ⟨jsTrim cap.1, jsTrim cap.2, trimmed⟩
      | none => none)

/-- The `for` loop of `matchRule`: category of the first rule whose
condition evaluates true. -/
def matchRuleGo (evalCond : String → String → String → String → Bool)
    (url title content : String) : List Rule → Option String
  | [] => none
  | r :: rest =>
    if evalCond r.condition url title content then some r.category
    else matchRuleGo evalCond url title content rest

/-- A bookmark as the classification engine sees it. -/
structure Bm where
  id : Nat
  title : String
  url : Option String
deriving DecidableEq, Repr

def BTree.toBm (t : BTree) : Bm := ⟨t.id, t.title, t.url⟩

/-- `matchRule`: `null` for an empty rule list, otherwise the first
matching rule's category, evaluating conditions against
`bookmark.url || ''` and `bookmark.title || ''` and the fetched content. -/
def matchRule (evalCond : String → String → String → String → Bool)
    (bookmark : Bm) (content : String) (rules : List Rule) : Option String :=
  if rules.length = 0 then none
  else matchRuleGo evalCond (bookmark.url.getD ("")) bookmark.title content rules

/-! ### The run monad

State: a clock counting `await` suspension points, and the trace of
collaborator calls issued so far, each stamped with the clock value at
which it was issued.  Exceptions: `aborted` models `throw new
Error('Aborted')`; `failure` models every other thrown error, carrying the
message. -/

inductive RunErr where
  | aborted
  | failure (msg : String)
deriving DecidableEq, Repr

/-- One collaborator call, as recorded in the trace. -/
inductive Effect where
  | flagProcessing (b : Bool)
  | createArchive
  | getAllBookmarks (excluded : List String)
  | fetchContent (url : String)
  | llmCreateCategories
  | llmClassify (bmId : Nat)
  | getDefaultFolder
  | createFolderPathFx (path : String) (root : Nat)
  | moveBookmark (bmId : Nat) (folderId : Nat)
  | getTreeFx
  | removeFolder (folderId : Nat)
  | persistProcessingFalse
  | persistInitialized
deriving DecidableEq, Repr

structure RunSt where
  clock : Nat
  trace : List (Nat × Effect)
deriving DecidableEq, Repr

def M (α : Type) : Type := RunSt → RunSt × Except RunErr α

def M.pure (a : α) : M α := fun s => (s, .ok a)

def M.bind (m : M α) (f : α → M β) : M β := fun s =>
  match m s with
  | (⟨c, tr⟩, .ok a) => f a ⟨c, tr⟩
  | (⟨c, tr⟩, .error e) => (⟨c, tr⟩, .error e)

instance : Monad M where
  pure := M.pure
  bind := M.bind

/-- Record a collaborator call at the current clock. -/
def emit (e : Effect) : M Unit := fun s =>
  match s with
  | ⟨c, tr⟩ => (⟨c, tr ++ [(c, e)]⟩, .ok ())

/-- One `await` suspension point. -/
def tick : M Unit := fun s =>
  match s with
  | ⟨c, tr⟩ => (⟨c + 1, tr⟩, .ok ())

def throwErr (e : RunErr) : M α := fun s => (s, .error e)

/-- `try … catch`: reify the outcome instead of propagating it. -/
def attempt (m : M α) : M (Except RunErr α) := fun s =>
  match m s with
  | (⟨c, tr⟩, .ok a) => (⟨c, tr⟩, .ok (.ok a))
  | (⟨c, tr⟩, .error e) => (⟨c, tr⟩, .ok (.error e))

/-- The abort time: `none` when the user never cancels, `some t` when the
abort controller fires at clock `t`. -/
abbrev AbortT := Option Nat

/-- `signal.aborted` at clock `c`. -/
def abortedAt (T : AbortT) (c : Nat) : Bool :=
  match T with
  | none => false
  | some t => decide (t ≤ c)

/-- `if (signal.aborted) throw new Error('Aborted')`. -/
def checkAbort (T : AbortT) : M Unit := fun s =>
  if abortedAt T s.clock then (s, .error .aborted) else (s, .ok ())

/-! ### Collaborators -/

/-- A content sample handed to the category-generation call. -/
structure SampleItem where
  title : String
  url : String
  content : String
deriving DecidableEq, Repr

/-- The configuration fields `_runInitialization` reads
(`ExtensionConfig`).  A `classificationConcurrency` of `0` stands for a
missing value; the source falls back to `10` through `||`. -/
structure Config where
  excludedDirs : List String
  initSampleRate : ℚ
  predefinedCategories : String
  maxCategories : Nat
  maxDirectoryDepth : Nat
  defaultLanguage : String
  classificationConcurrency : Nat
  customRules : String
  todoFolderName : String

/-- Responses of the external collaborators (bookmark store, scrapers, LLM
client) and of the JS runtime pieces the engine calls into.  `none` and
`false` model a call that throws.

`tree` is the bookmark tree read during enumeration and `treeAtCleanup`
the one read back by `_cleanupEmptyFolders` after all moves; `shuffle` is
the random rearrangement of `sampleArray`; `folderId` resolves a folder
path below a root to the deepest folder's id; `evalCond` and `lineMatch`
abstract the regular-expression work of `rulesService` (see above). -/
structure Oracle where
  tree : List BTree
  treeAtCleanup : List BTree
  shuffle : List Bm → List Bm
  archiveOk : Bool
  root : Option Nat
  fetch : String → Option String
  createCats : List SampleItem → Option (List String)
  classify : Bm → String → List String → Option String
  folderId : String → Nat → Nat
  moveOk : Nat → Nat → Bool
  evalCond : String → String → String → String → Bool
  lineMatch : String → Option (String × String)

/-- `await scraperService.fetchPageContent(url)`. -/
def callFetch (o : Oracle) (url : String) : M String := do
  emit (.fetchContent url)
  tick
  match o.fetch url with
  | some c => pure c
  | none => throwErr (.failure ("fetch failed"))

/-- `await bookmarkService.createFolderPath(path, root)` (also
`getOrCreateFolder`). -/
def callCreateFolderPath (o : Oracle) (path : String) (root : Nat) : M Nat := do
  emit (.createFolderPathFx path root)
  tick
  pure (o.folderId path root)

/-- `await bookmarkService.moveBookmark(id, folderId)`. -/
def callMove (o : Oracle) (bmId folderId : Nat) : M Unit := do
  emit (.moveBookmark bmId folderId)
  tick
  if o.moveOk bmId folderId then pure () else throwErr (.failure ("move failed"))

/-! ### `_classifySingleBookmark` and the classifying stage -/

/-- `_classifySingleBookmark`: abort check, content fetch, abort check,
custom-rule short-circuit (no LLM call on a rule match), otherwise LLM
classification, abort check, folder resolution.  Returns
`{path, folderId}`. -/
def classifySingleBookmark (o : Oracle) (T : AbortT) (bm : Bm)
    (existingCategories : List String) (rootFolderId : Nat) (rules : List Rule) :
    M (String × Nat) := do
  checkAbort T
  let content ← callFetch o (bm.url.getD (""))
  checkAbort T
  match matchRule o.evalCond bm content rules with
  | some ruleMatch => do
      let fid ← callCreateFolderPath o ruleMatch rootFolderId
      pure (ruleMatch, fid)
  | none => do
      emit (.llmClassify bm.id)
      tick
      match o.classify bm content existingCategories with
      | none => throwErr (.failure ("classification failed"))
      | some path => do
          checkAbort T
          let fid ← callCreateFolderPath o path rootFolderId
          pure (path, fid)

/-- The per-item task of the classifying stage (`batch.map` callback):
classify and move; on a non-abort error, move the bookmark to the Failures
folder instead (that move's own failure is swallowed); abort errors are
rethrown, and the signal is consulted before each move. -/
def processItem (o : Oracle) (T : AbortT) (existingCategories : List String)
    (rootFolderId failuresFolderId : Nat) (rules : List Rule) (bm : Bm) : M Bool := do
  let r ← attempt (do
    checkAbort T
    let pr ← classifySingleBookmark o T bm existingCategories rootFolderId rules
    checkAbort T
    callMove o bm.id pr.2
    pure true)
  match r with
  | .ok b => pure b
  | .error .aborted => throwErr .aborted
  | .error (.failure _) => do
      checkAbort T
      let _ ← attempt (callMove o bm.id failuresFolderId)
      pure false

/-- One window, processed under `Promise.allSettled`: every item settles,
abort rejections included. -/
def processWindow (o : Oracle) (T : AbortT) (existingCategories : List String)
    (rootFolderId failuresFolderId : Nat) (rules : List Rule) :
    List Bm → M (List (Except RunErr Bool))
  | [] => pure []
  | bm :: rest => do
      let r ← attempt (processItem o T existingCategories rootFolderId failuresFolderId rules bm)
      let rs ← processWindow o T existingCategories rootFolderId failuresFolderId rules rest
      pure (r :: rs)

/-- The classifying loop over concurrency windows: abort check at the top
of each iteration, the window under `allSettled`, then the
`Promise.race` with the abort promise — once the signal is set the race
throws `Aborted` and the window's settled results are discarded. -/
def classifyLoop (o : Oracle) (T : AbortT) (existingCategories : List String)
    (rootFolderId failuresFolderId : Nat) (rules : List Rule) :
    List (List Bm) → M Unit
  | [] => pure ()
  | batch :: rest => do
      checkAbort T
      let _ ← processWindow o T existingCategories rootFolderId failuresFolderId rules batch
      checkAbort T
      classifyLoop o T existingCategories rootFolderId failuresFolderId rules rest

/-! ### `_fetchBatchContent` -/

/-- One sample fetch inside `_fetchBatchContent`: `null` for a URL-less
bookmark, `null` for a failed fetch (the failure is caught), the page
content otherwise. -/
def fetchOneSample (o : Oracle) (bm : Bm) : M (Option SampleItem) :=
  match bm.url with
  | none => pure none
  | some u => do
      emit (.fetchContent u)
      tick
      pure ((o.fetch u).map (fun c => ⟨bm.title, u, c⟩))

def fetchSampleBatch (o : Oracle) : List Bm → M (List (Option SampleItem))
  | [] => pure []
  | bm :: rest => do
      let r ← fetchOneSample o bm
      let rs ← fetchSampleBatch o rest
      pure (r :: rs)

/-- The batch loop of `_fetchBatchContent`: abort check per batch, the
batch under `allSettled`, then `await sleep(500)`. -/
def fetchBatchContentGo (o : Oracle) (T : AbortT) : List (List Bm) → M (List (Option SampleItem))
  | [] => pure []
  | batch :: rest => do
      checkAbort T
      let rs ← fetchSampleBatch o batch
      tick
      let more ← fetchBatchContentGo o T rest
      pure (rs ++ more)

/-- `_fetchBatchContent`: fetch content for the given bookmarks in batches
of `BATCH_SIZE`, aligned 1:1 with the input, `null` where a fetch
failed. -/
def fetchBatchContent (o : Oracle) (T : AbortT) (bookmarks : List Bm) :
    M (List (Option SampleItem)) :=
  fetchBatchContentGo o T (batchArray bookmarks BATCH_SIZE)

/-! ### `_runInitialization` and `runInitialization` -/

/-- The category-folder materialization loop
(`for (const category of categories) { createFolderPath … }`). -/
def createCategoryFolders (o : Oracle) (rootFolderId : Nat) : List String → M Unit
  | [] => pure ()
  | c :: cs => do
      let _ ← callCreateFolderPath o c rootFolderId
      createCategoryFolders o rootFolderId cs

/-- `Object.keys` of the `categoryIds` record: first occurrence of each
key, in insertion order. -/
def dedupKeysGo (seen : List String) : List String → List String
  | [] => []
  | c :: cs => if seen.contains c then dedupKeysGo seen cs else c :: dedupKeysGo (c :: seen) cs

def dedupKeys (l : List String) : List String := dedupKeysGo [] l

/-- The deletion loop of `_cleanupEmptyFolders` (each delete failure is
caught and logged). -/
def removeEmptyFolders : List Nat → M Unit
  | [] => pure ()
  | i :: is => do
      emit (.removeFolder i)
      tick
      removeEmptyFolders is

/-- The parsed predefined-category list:
`split('\n').map(trim).filter(nonempty)`. -/
def parsePredefined (text : String) : List String :=
  ((jsSplit ('\n') text).map jsTrim).filter (fun l => 0 < l.length)

/-- An `if (!ok) throw` statement: fail with `msg` unless `ok`. -/
def requireOk (ok : Bool) (msg : String) : M Unit :=
  if ok then pure () else throwErr (.failure msg)

/-- An `if (x.length === 0) throw` statement: fail with `msg` when the
count is zero. -/
def failIfZero (n : Nat) (msg : String) : M Unit :=
  if n = 0 then throwErr (.failure msg) else pure ()

/-- The predefined-category parse of stage 5, failing on an empty parse. -/
def parsePredefinedOrFail (text : String) : M (List String) :=
  let cats := parsePredefined text
  if cats.length = 0 then throwErr (.failure ("No valid predefined categories found"))
  else pure cats

/-- Stage 5 (creating categories): use the predefined list when its
trimmed text is non-empty — parsing it and failing on an empty parse —
otherwise require at least one successful sample fetch and call the LLM
category generation. -/
def categorizingStage (o : Oracle) (cfg : Config) (sampleData : List (Option SampleItem)) :
    M (List String) :=
  if 0 < (jsTrim cfg.predefinedCategories).length then
    parsePredefinedOrFail cfg.predefinedCategories
  else do
    let validSampleData := sampleData.filterMap id
    failIfZero validSampleData.length ("Failed to fetch content for sample bookmarks")
    emit .llmCreateCategories
    tick
    match o.createCats validSampleData with
    | none => throwErr (.failure ("createCategories failed"))
    | some cats => pure cats

/-- Stage 6 (classify all bookmarks): abort check, the Failures folder,
`Object.keys(categoryIds)`, the concurrency default, the parsed custom
rules, and the windowed classifying loop over the URL-bearing bookmarks. -/
def classifyingStage (o : Oracle) (T : AbortT) (cfg : Config) (allBookmarks : List Bm)
    (categories : List String) (rootFolderId : Nat) : M Unit := do
  checkAbort T
  let failuresFolderId ← callCreateFolderPath o FAILURES_FOLDER_NAME rootFolderId
  let existingCategories := dedupKeys categories
  let concurrency := if cfg.classificationConcurrency = 0 then 10
    else cfg.classificationConcurrency
  let rules := parseRules o.lineMatch cfg.customRules
  let bookmarksToClassify := allBookmarks.filter (fun b => b.url.isSome)
  classifyLoop o T existingCategories rootFolderId failuresFolderId rules
    (batchArray bookmarksToClassify concurrency)

/-- The completion phase: empty-folder cleanup with the protected-folder
exclusion list, the TODO folder (its creation error swallowed), and the
persisted `isInitialized` flag.  No abort checks remain here. -/
def completionStage (o : Oracle) (cfg : Config) (categories : List String)
    (rootFolderId : Nat) : M Unit := do
  emit .getTreeFx
  tick
  let topLevelCategories := categories.map (fun c => (jsSplit ('/') c).headD (""))
  removeEmptyFolders (cleanupEmptyFolders o.treeAtCleanup
    ([BACKUP_FOLDER_NAME, FAILURES_FOLDER_NAME] ++ topLevelCategories))
  let _ ← attempt (callCreateFolderPath o cfg.todoFolderName rootFolderId)
  emit .persistInitialized
  tick
  pure ()

/-- The part of `_runInitialization` following the taxonomy decision:
resolve the default root folder, materialize the category folders, then the
classifying stage and the completion phase. -/
def afterCategories (o : Oracle) (T : AbortT) (cfg : Config) (allBookmarks : List Bm)
    (categories : List String) : M Unit := do
  emit .getDefaultFolder
  tick
  match o.root with
  | none => throwErr (.failure ("No bookmark folders found"))
  | some rootFolderId => do
    createCategoryFolders o rootFolderId categories
    classifyingStage o T cfg allBookmarks categories rootFolderId
    completionStage o cfg categories rootFolderId

/-- Stages 3–5 of `_runInitialization` (sampling, sample-content fetch,
categorizing) and everything after them. -/
def runInnerTail (o : Oracle) (T : AbortT) (cfg : Config) (allBookmarks : List Bm) :
    M Unit := do
  checkAbort T
  let sampledBookmarks := sampleArray o.shuffle allBookmarks cfg.initSampleRate
  checkAbort T
  let sampleData ← fetchBatchContent o T (sampledBookmarks.filter (fun b => b.url.isSome))
  checkAbort T
  let categories ← categorizingStage o cfg sampleData
  afterCategories o T cfg allBookmarks categories

/-- `_runInitialization`: the staged bulk run.  Stages 1–6 each begin with
an abort check; the completion phase has none.  Progress callbacks are not
traced. -/
def runInner (o : Oracle) (T : AbortT) (cfg : Config) : M Unit := do
  checkAbort T
  emit .createArchive
  tick
  requireOk o.archiveOk ("archive failed")
  checkAbort T
  emit (.getAllBookmarks cfg.excludedDirs)
  tick
  let allBookmarks := (flattenBookmarks o.tree cfg.excludedDirs).map BTree.toBm
  failIfZero allBookmarks.length ("No bookmarks found to classify")
  runInnerTail o T cfg allBookmarks

/-- The classifier service's in-memory fields: `isProcessing` and whether
`abortController` is non-null. -/
structure SvcState where
  isProcessing : Bool
  hasAbortController : Bool
deriving DecidableEq, Repr

instance [DecidableEq ε] [DecidableEq α] : DecidableEq (Except ε α) := fun a b =>
  match a, b with
  | .ok x, .ok y => if h : x = y then isTrue (by rw [h]) else isFalse (by simp [h])
  | .ok _, .error _ => isFalse (by simp)
  | .error _, .ok _ => isFalse (by simp)
  | .error e, .error f =>
    if h : e = f then isTrue (by rw [h]) else isFalse (by simp [h])

structure RunOutcome where
  state : SvcState
  result : Except RunErr Unit
  trace : List (Nat × Effect)
deriving DecidableEq, Repr

/-- `runInitialization`: the already-in-progress guard, the flag/controller
setup, the `catch` that converts an `Aborted` throw into a clean return,
and the `finally` that resets the flag, clears the controller and persists
`isProcessing: false` on every exit path. -/
def runInitialization (st : SvcState) (o : Oracle) (T : AbortT) (cfg : Config) : RunOutcome :=
  if st.isProcessing then
    ⟨st, .error (.failure ("Classification is already in progress")), []⟩
  else
    let s0 : RunSt := ⟨0, [(0, Effect.flagProcessing true)]⟩
    match runInner o T cfg s0 with
    | (⟨c, tr⟩, r) =>
      let finalTrace := tr ++
        [(c, Effect.flagProcessing false), (c, Effect.persistProcessingFalse)]
      match r with
      | .ok () => ⟨⟨false, false⟩, .ok (), finalTrace⟩
      | .error .aborted => ⟨⟨false, false⟩, .ok (), finalTrace⟩
      | .error e => ⟨⟨false, false⟩, .error e, finalTrace⟩

/-! ### Statement-level readouts -/

/-- The classification an item resolves to when no abort interferes:
`none` when its content fetch or its LLM call fails, otherwise the
rule-matched or LLM-chosen category path. -/
def resolvedPath (o : Oracle) (existingCategories : List String) (rules : List Rule)
    (bm : Bm) : Option String :=
  match o.fetch (bm.url.getD ("")) with
  | none => none
  | some content =>
    match matchRule o.evalCond bm content rules with
    | some cat => some cat
    | none => o.classify bm content existingCategories

/-- The folder an item is moved into on an abort-free run: its resolved
category folder, or the Failures folder when its classification failed. -/
def destFolder (o : Oracle) (existingCategories : List String) (rules : List Rule)
    (rootFolderId failuresFolderId : Nat) (bm : Bm) : Nat :=
  match resolvedPath o existingCategories rules bm with
  | some path => o.folderId path rootFolderId
  | none => failuresFolderId

/-! ### Concrete fixtures for witnesses and counterexamples -/

/-- A small bookmark tree: the bookmarks bar holding two bookmarks. -/
def treeFix : List BTree :=
  [.node 0 ("root") none [.node 1 ("Bookmarks Bar") none
    [.node 2 ("a") (some ("https://a.example")) [],
     .node 3 ("b") (some ("https://b.example")) []]]]

/-- A collaborator fixture: the fetch of `https://b.example` fails, every
other call succeeds; no custom rule matches. -/
def oFix : Oracle where
  tree := treeFix
  treeAtCleanup := [.node 0 ("root") none [.node 1 ("Bookmarks Bar") none []]]
  shuffle := id
  archiveOk := true
  root := some 1
  fetch := fun u => if u = ("https://b.example") then none else some ("content")
  createCats := fun _ => some [("Tech/AI"), ("News")]
  classify := fun _ _ _ => some ("Tech/AI")
  folderId := fun _ _ => 42
  moveOk := fun _ _ => true
  evalCond := fun _ _ _ _ => false
  lineMatch := fun _ => none

/-- A collaborator fixture whose rule condition `url contains a.example`
evaluates true exactly on the URL `https://a.example`. -/
def oRuleFix : Oracle :=
  { oFix with evalCond := fun cond url _ _ =>
      cond == ("url contains a.example") && url == ("https://a.example") }

/-- A custom rule fixture. -/
def ruleFix : Rule :=
  ⟨("url contains a.example"), ("Rules/Hit"),
   ("- If url contains a.example, classify as Rules/Hit")⟩

/-- A configuration fixture: no predefined categories, no custom rules,
full sample rate. -/
def cfgFix : Config where
  excludedDirs := []
  initSampleRate := 1
  predefinedCategories := ""
  maxCategories := 10
  maxDirectoryDepth := 2
  defaultLanguage := ("en")
  classificationConcurrency := 10
  customRules := ""
  todoFolderName := ("TODO")

/-- The configuration fixture with a predefined category list. -/
def cfgPreFix : Config :=
  { cfgFix with predefinedCategories := ("Tech\nNews") }

/-- A folder `A` whose only URL-bearing descendant sits four levels deep
(`A/B/C/D/bm`): beyond the three levels the cleanup's content test
inspects. -/
def folderAFix : BTree :=
  .node 1 ("A") none [.node 2 ("B") none [.node 3 ("C") none
    [.node 4 ("D") none [.node 5 ("deep") (some ("https://deep.example")) []]]]]

/-- A bookmark tree containing `folderAFix` under the bookmarks bar. -/
def deepTreeFix : List BTree :=
  [.node 0 ("root") none [.node 10 ("Bookmarks Bar") none [folderAFix]]]

/-- The bookmarks of `treeFix`, as the classifying stage sees them. -/
def bmsFix : List Bm :=
  [⟨2, ("a"), some ("https://a.example")⟩, ⟨3, ("b"), some ("https://b.example")⟩]

/-- A tree with a bookmark inside a folder titled `Backup`. -/
def backupTreeFix : List BTree :=
  [.node 0 ("root") none [.node 1 ("Bookmarks Bar") none
    [.node 4 (BACKUP_FOLDER_NAME) none [.node 7 ("x") (some ("https://x.example")) []]]]]

/-- `EmitsOnly P m`: the computation only appends to the trace, and every
appended timestamped effect satisfies `P`. -/
def EmitsOnly (P : Nat → Effect → Prop) (m : M α) : Prop :=
  ∀ s, ∃ Δ, (m s).1.trace = s.trace ++ Δ ∧ ∀ p ∈ Δ, P p.1 p.2

/-- Effects other than the category-generation LLM call and bookmark
moves; the helper predicate behind the per-function trace lemmas. -/
def NotCCMove (e : Effect) : Prop :=
  e ≠ Effect.llmCreateCategories ∧ ∀ b f, e ≠ Effect.moveBookmark b f

/-- «Every move effect was issued before clock `τ`» — the cancellation
discipline of the classifying stage. -/
def MoveBefore (τ : Nat) : Nat → Effect → Prop := fun t e =>
  ∀ b f, e = Effect.moveBookmark b f → t < τ

/-! ## Stepping lemmas for the run monad -/

@[simp] theorem bind_eq (m : M α) (f : α → M β) : m >>= f = M.bind m f := rfl

@[simp] theorem pure_eq (a : α) : (pure a : M α) = M.pure a := rfl

theorem bind_ok {m : M α} {f : α → M β} {s s' : RunSt} {a : α}
    (h : m s = (s', .ok a)) : (m >>= f) s = f a s' := by
  obtain ⟨c, tr⟩ := s'
  show M.bind m f s = _
  unfold M.bind
  rw [h]

theorem bind_err {m : M α} {f : α → M β} {s s' : RunSt} {e : RunErr}
    (h : m s = (s', .error e)) : (m >>= f) s = (s', .error e) := by
  obtain ⟨c, tr⟩ := s'
  show M.bind m f s = _
  unfold M.bind
  rw [h]

@[simp] theorem M.pure_apply (a : α) (s : RunSt) : (M.pure a : M α) s = (s, .ok a) := rfl

@[simp] theorem emit_apply (e : Effect) (c : Nat) (tr : List (Nat × Effect)) :
    emit e ⟨c, tr⟩ = (⟨c, tr ++ [(c, e)]⟩, .ok ()) := rfl

@[simp] theorem tick_apply (c : Nat) (tr : List (Nat × Effect)) :
    tick ⟨c, tr⟩ = (⟨c + 1, tr⟩, .ok ()) := rfl

@[simp] theorem throwErr_apply (e : RunErr) (s : RunSt) :
    (throwErr e : M α) s = (s, .error e) := rfl

@[simp] theorem abortedAt_none (c : Nat) : abortedAt none c = false := rfl

@[simp] theorem checkAbort_none_apply (s : RunSt) : checkAbort none s = (s, .ok ()) := rfl

theorem checkAbort_pass {T : AbortT} {s : RunSt} (h : abortedAt T s.clock = false) :
    checkAbort T s = (s, .ok ()) := by
  unfold checkAbort
  rw [h]
  simp

theorem checkAbort_fire {T : AbortT} {s : RunSt} (h : abortedAt T s.clock = true) :
    checkAbort T s = (s, .error .aborted) := by
  unfold checkAbort
  rw [h]
  simp

theorem attempt_ok {m : M α} {s s' : RunSt} {a : α} (h : m s = (s', .ok a)) :
    attempt m s = (s', .ok (.ok a)) := by
  obtain ⟨c, tr⟩ := s'
  unfold attempt
  rw [h]

theorem attempt_err {m : M α} {s s' : RunSt} {e : RunErr} (h : m s = (s', .error e)) :
    attempt m s = (s', .ok (.error e)) := by
  obtain ⟨c, tr⟩ := s'
  unfold attempt
  rw [h]

/-! ## Trace discipline -/

theorem EmitsOnly.mono {P Q : Nat → Effect → Prop} {m : M α}
    (h : EmitsOnly P m) (hPQ : ∀ c e, P c e → Q c e) : EmitsOnly Q m := by
  intro s
  obtain ⟨Δ, h1, h2⟩ := h s
  exact ⟨Δ, h1, fun p hp => hPQ _ _ (h2 p hp)⟩

theorem emitsOnly_pure (P : Nat → Effect → Prop) (a : α) : EmitsOnly P (pure a) :=
  fun s => ⟨[], by simp, by simp⟩

theorem emitsOnly_throwErr (P : Nat → Effect → Prop) (e : RunErr) :
    EmitsOnly P (throwErr e : M α) :=
  fun s => ⟨[], by simp, by simp⟩

theorem emitsOnly_tick (P : Nat → Effect → Prop) : EmitsOnly P tick := by
  intro s
  obtain ⟨c, tr⟩ := s
  exact ⟨[], by simp, by simp⟩

theorem emitsOnly_checkAbort (P : Nat → Effect → Prop) (T : AbortT) :
    EmitsOnly P (checkAbort T) := by
  intro s
  unfold checkAbort
  by_cases h : abortedAt T s.clock = true
  · rw [h]
    exact ⟨[], by simp, by simp⟩
  · rw [Bool.not_eq_true] at h
    rw [h]
    exact ⟨[], by simp, by simp⟩

theorem emitsOnly_emit {P : Nat → Effect → Prop} {e : Effect}
    (h : ∀ c, P c e) : EmitsOnly P (emit e) := by
  intro s
  obtain ⟨c, tr⟩ := s
  exact ⟨[(c, e)], by simp, by simpa using h c⟩

theorem emitsOnly_bind {P : Nat → Effect → Prop} {m : M α} {f : α → M β}
    (hm : EmitsOnly P m) (hf : ∀ a, EmitsOnly P (f a)) : EmitsOnly P (m >>= f) := by
  intro s
  obtain ⟨Δ₁, h1, h2⟩ := hm s
  rcases hms : m s with ⟨s₁, r⟩
  rw [hms] at h1
  cases r with
  | ok a =>
    obtain ⟨Δ₂, h3, h4⟩ := hf a s₁
    refine ⟨Δ₁ ++ Δ₂, ?_, ?_⟩
    · rw [bind_ok hms, h3, h1, List.append_assoc]
    · intro p hp
      rcases List.mem_append.mp hp with h | h
      · exact h2 p h
      · exact h4 p h
  | error e =>
    refine ⟨Δ₁, ?_, h2⟩
    rw [bind_err hms]
    exact h1

theorem emitsOnly_attempt {P : Nat → Effect → Prop} {m : M α}
    (hm : EmitsOnly P m) : EmitsOnly P (attempt m) := by
  intro s
  obtain ⟨Δ, h1, h2⟩ := hm s
  rcases hms : m s with ⟨s₁, r⟩
  rw [hms] at h1
  cases r with
  | ok a => exact ⟨Δ, by rw [attempt_ok hms]; exact h1, h2⟩
  | error e => exact ⟨Δ, by rw [attempt_err hms]; exact h1, h2⟩

theorem emitsOnly_ite {P : Nat → Effect → Prop} {m₁ m₂ : M α} {b : Prop} [Decidable b]
    (h₁ : EmitsOnly P m₁) (h₂ : EmitsOnly P m₂) :
    EmitsOnly P (if b then m₁ else m₂) := by
  by_cases hb : b
  · rwa [if_pos hb]
  · rwa [if_neg hb]

/-! ## Idempotence of `createFolderPath` (towards C9) -/

theorem find?_append_some {p : α → Bool} :
    ∀ {l₁ : List α} (l₂ : List α) {a : α},
      l₁.find? p = some a → (l₁ ++ l₂).find? p = some a := by
  intro l₁
  induction l₁ with
  | nil => intro l₂ a h; simp [List.find?] at h
  | cons x xs ih =>
    intro l₂ a h
    by_cases hx : p x
    · rw [List.find?_cons_of_pos _ hx] at h
      rw [List.cons_append, List.find?_cons_of_pos _ hx]
      exact h
    · rw [List.find?_cons_of_neg _ (by simpa using hx)] at h
      rw [List.cons_append, List.find?_cons_of_neg _ (by simpa using hx)]
      exact ih _ h

theorem find?_append_none {p : α → Bool} :
    ∀ {l₁ : List α} (l₂ : List α),
      l₁.find? p = none → (l₁ ++ l₂).find? p = l₂.find? p := by
  intro l₁
  induction l₁ with
  | nil => intro l₂ _; simp
  | cons x xs ih =>
    intro l₂ h
    by_cases hx : p x
    · rw [List.find?_cons_of_pos _ hx] at h
      exact absurd h (by simp)
    · rw [List.find?_cons_of_neg _ (by simpa using hx)] at h
      rw [List.cons_append, List.find?_cons_of_neg _ (by simpa using hx)]
      exact ih _ h

theorem getChildren_of_append {s s' : Store} {Δ : List BNode} (pid : Nat)
    (h : s'.nodes = s.nodes ++ Δ) :
    getChildren s' pid = getChildren s pid ++ Δ.filter (fun n => n.parentId == pid) := by
  simp [getChildren, h, List.filter_append]

/-- `createFolderPathGo` only ever appends nodes to the store. -/
theorem createFolderPathGo_extends :
    ∀ (parts : List String) (s : Store) (pid : Nat),
      ∃ Δ, (createFolderPathGo parts s pid).1.nodes = s.nodes ++ Δ := by
  intro parts
  induction parts with
  | nil => intro s pid; exact ⟨[], by simp [createFolderPathGo]⟩
  | cons part rest ih =>
    intro s pid
    cases hf : (getChildren s pid).find? (fun c => isFolder c && c.title == part) with
    | some existing =>
      obtain ⟨Δ, hΔ⟩ := ih s existing.id
      exact ⟨Δ, by rw [createFolderPathGo, hf]; exact hΔ⟩
    | none =>
      obtain ⟨Δ, hΔ⟩ := ih ⟨s.nodes ++ [⟨s.nextId, part, none, pid⟩], s.nextId + 1⟩ s.nextId
      refine ⟨⟨s.nextId, part, none, pid⟩ :: Δ, ?_⟩
      rw [createFolderPathGo, hf]
      simpa [createFolder, List.append_assoc] using hΔ

/-- Re-running the folder-resolution loop over the store it produced finds
every segment it created or reused and changes nothing. -/
theorem createFolderPathGo_idem :
    ∀ (parts : List String) (s : Store) (pid : Nat),
      createFolderPathGo parts (createFolderPathGo parts s pid).1 pid =
        createFolderPathGo parts s pid := by
  intro parts
  induction parts with
  | nil => intro s pid; simp [createFolderPathGo]
  | cons part rest ih =>
    intro s pid
    cases hf : (getChildren s pid).find? (fun c => isFolder c && c.title == part) with
    | some existing =>
      have hstep : createFolderPathGo (part :: rest) s pid =
          createFolderPathGo rest s existing.id := by
        rw [createFolderPathGo, hf]
      obtain ⟨Δ, hΔ⟩ := createFolderPathGo_extends rest s existing.id
      have hf' : (getChildren (createFolderPathGo rest s existing.id).1 pid).find?
          (fun c => isFolder c && c.title == part) = some existing := by
        rw [getChildren_of_append pid hΔ]
        exact find?_append_some _ hf
      rw [hstep, createFolderPathGo, hf']
      exact ih s existing.id
    | none =>
      have hstep : createFolderPathGo (part :: rest) s pid =
          createFolderPathGo rest ⟨s.nodes ++ [⟨s.nextId, part, none, pid⟩], s.nextId + 1⟩
            s.nextId := by
        rw [createFolderPathGo, hf]
        rfl
      obtain ⟨Δ, hΔ⟩ := createFolderPathGo_extends rest
        ⟨s.nodes ++ [⟨s.nextId, part, none, pid⟩], s.nextId + 1⟩ s.nextId
      have hΔ' : (createFolderPathGo rest
          ⟨s.nodes ++ [⟨s.nextId, part, none, pid⟩], s.nextId + 1⟩ s.nextId).1.nodes =
          s.nodes ++ (⟨s.nextId, part, none, pid⟩ :: Δ) := by
        rw [hΔ]; simp
      have hfilter : ((⟨s.nextId, part, none, pid⟩ :: Δ : List BNode).filter
          (fun n => n.parentId == pid)) =
          ⟨s.nextId, part, none, pid⟩ :: Δ.filter (fun n => n.parentId == pid) := by
        simp
      have hf' : (getChildren (createFolderPathGo rest
          ⟨s.nodes ++ [⟨s.nextId, part, none, pid⟩], s.nextId + 1⟩ s.nextId).1 pid).find?
          (fun c => isFolder c && c.title == part) = some ⟨s.nextId, part, none, pid⟩ := by
        rw [getChildren_of_append pid hΔ', find?_append_none _ hf, hfilter,
          List.find?_cons_of_pos _ (by simp [isFolder])]
      rw [hstep, createFolderPathGo, hf']
      exact ih _ _

/-- Claim C9: folder-path resolution is idempotent: resolving the same path
below the same root a second time creates no folder (the store is
unchanged) and returns the same deepest-folder id. -/
theorem createFolderPath_idem (s : Store) (path : String) (rootParentId : Nat) :
    createFolderPath (createFolderPath s path rootParentId).1 path rootParentId =
      createFolderPath s path rootParentId := by
  unfold createFolderPath
  exact createFolderPathGo_idem (parsePath path) s rootParentId

/-! ## `sampleArray` (towards C6 and C10) -/

theorem floor_mul_rat (n : Nat) (r : ℚ) :
    ⌊(n : ℚ) * r⌋ = ((n : Int) * r.num) / (r.den : Int) := by
  conv_lhs => rw [← Rat.num_div_den r]
  rw [show (n : ℚ) * ((r.num : ℚ) / (r.den : ℚ)) =
      (((n : Int) * r.num : Int) : ℚ) / ((r.den : ℕ) : ℚ) by push_cast; ring]
  exact Rat.floor_intCast_div_natCast _ _

/-- The kernel-computable sample size is the spec's
`max(1, floor(n * r))`. -/
theorem sampleSize_eq_floor (n : Nat) (r : ℚ) :
    sampleSize n r = max 1 (Int.toNat ⌊(n : ℚ) * r⌋) := by
  unfold sampleSize
  rw [floor_mul_rat]

theorem sampleSize_le_length {n : Nat} {r : ℚ} (hn : 1 ≤ n) (h1 : r ≤ 1) :
    sampleSize n r ≤ n := by
  rw [sampleSize_eq_floor]
  have hfloor : ⌊(n : ℚ) * r⌋ ≤ (n : Int) := by
    calc ⌊(n : ℚ) * r⌋ ≤ ⌊(n : ℚ)⌋ := by
          apply Int.floor_le_floor
          calc (n : ℚ) * r ≤ (n : ℚ) * 1 := by
                apply mul_le_mul_of_nonneg_left h1
                exact_mod_cast Nat.zero_le n
            _ = (n : ℚ) := mul_one _
      _ = (n : Int) := Int.floor_intCast n
  have : Int.toNat ⌊(n : ℚ) * r⌋ ≤ n := by
    omega
  omega

/-- Claim C6: for a list of length `n ≥ 1` and a rate `r ∈ (0,1]`,
`sampleArray` returns exactly `max(1, ⌊n*r⌋)` elements, a sub-permutation
of the input (no element taken more often than it occurs — sampling
without replacement), and duplicate-free whenever the input is. -/
theorem sampleArray_spec (shuffle : List α → List α) (l : List α) (r : ℚ)
    (hsh : (shuffle l).Perm l) (hn : 1 ≤ l.length) (h1 : r ≤ 1) :
    (sampleArray shuffle l r).length = max 1 (Int.toNat ⌊(l.length : ℚ) * r⌋) ∧
    (sampleArray shuffle l r).Subperm l ∧
    (l.Nodup → (sampleArray shuffle l r).Nodup) := by
  have hlen : (shuffle l).length = l.length := hsh.length_eq
  have hsz : sampleSize l.length r ≤ l.length := sampleSize_le_length hn h1
  have hsub : (sampleArray shuffle l r).Sublist (shuffle l) := by
    unfold sampleArray
    exact List.take_sublist _ _
  refine ⟨?_, ?_, ?_⟩
  · unfold sampleArray
    rw [List.length_take, hlen, ← sampleSize_eq_floor]
    omega
  · exact hsub.subperm.trans hsh.subperm
  · intro hnd
    exact hsub.nodup ((hsh.nodup_iff).mpr hnd)

/-- Witness for C6 at `l = [1,2,3]`, `r = 1`, identity shuffle. -/
theorem sampleArray_spec_witness :
    (sampleArray id [1, 2, 3] (1 : ℚ)).length =
      max 1 (Int.toNat ⌊((3 : ℕ) : ℚ) * 1⌋) ∧
    (sampleArray id [1, 2, 3] (1 : ℚ)).Subperm [1, 2, 3] ∧
    (([1, 2, 3] : List ℕ).Nodup → (sampleArray id [1, 2, 3] (1 : ℚ)).Nodup) := by
  have h := sampleArray_spec (α := ℕ) id [1, 2, 3] 1 (List.Perm.refl _)
    (by norm_num) (by norm_num)
  exact ⟨h.1, h.2.1, h.2.2⟩

/-- Claim C10: on the empty list `sampleArray` returns the empty list for
every rate — the `max(1, ⌊n*r⌋)` size formula does not extend to `n = 0`. -/
theorem sampleArray_nil (shuffle : List α → List α) (r : ℚ)
    (hsh : (shuffle ([] : List α)).Perm []) : sampleArray shuffle [] r = [] := by
  unfold sampleArray
  rw [List.Perm.eq_nil hsh]
  simp

/-- Witness for C10 at `r = 1/2`, identity shuffle. -/
theorem sampleArray_nil_witness : sampleArray id ([] : List ℕ) (1 / 2 : ℚ) = [] :=
  sampleArray_nil id (1 / 2) (List.Perm.refl _)

/-! ## Empty-folder pruning (C5) -/

/-- Claim C5, evaluated at the failing input: folder `A` has a URL-bearing
bookmark descendant (four levels deep), yet `_cleanupEmptyFolders` puts it
on the deletion list — the implemented content test only inspects three
levels below a folder, so pruning is not «no URL-bearing descendant at any
depth».  (The bookmarks bar, id 10, is deleted for the same reason.) -/
theorem cleanup_deletes_folder_with_deep_bookmark :
    specHasUrlDescendant folderAFix = true ∧
    cleanupEmptyFolders deepTreeFix [BACKUP_FOLDER_NAME, FAILURES_FOLDER_NAME] =
      [folderAFix.id, 10] := by
  constructor
  · decide
  · decide

/-! ## Enumeration and excluded folders (C8) -/

/-- Counterexample to claim C8 as stated: with an empty configured
exclusion list, the bookmark inside the folder titled `Backup` IS
enumerated — the backup folder is not excluded «regardless of
configuration», only via the configured list. -/
theorem flattenBookmarks_enumerates_backup :
    (flattenBookmarks backupTreeFix []).map BTree.id = [7] ∧
    (flattenBookmarks backupTreeFix [BACKUP_FOLDER_NAME]).map BTree.id = [] := by
  constructor
  · decide
  · decide

/-! ## Rule matching (C7) -/

theorem matchRuleGo_eq_find (ev : String → String → String → String → Bool)
    (url title content : String) :
    ∀ rules : List Rule, matchRuleGo ev url title content rules =
      (rules.find? (fun r => ev r.condition url title content)).map Rule.category := by
  intro rules
  induction rules with
  | nil => simp [matchRuleGo]
  | cons r rest ih =>
    by_cases h : ev r.condition url title content
    · simp [matchRuleGo, List.find?, h]
    · simpa [matchRuleGo, List.find?, h] using ih

/-- Claim C7: rule matching returns the category of the first rule (in
list order) whose condition evaluates true, or no match; and when a rule
matches during single-item classification, the item's result is the
rule's category and the whole computation is two collaborator calls —
fetch and folder resolution — so the LLM classifier is never invoked. -/
theorem matchRule_first_match_and_shortcircuit :
    (∀ (ev : String → String → String → String → Bool) (bm : Bm) (content : String)
        (rules : List Rule),
      matchRule ev bm content rules =
        (rules.find? (fun r =>
          ev r.condition (bm.url.getD ("")) bm.title content)).map Rule.category) ∧
    (∀ (o : Oracle) (bm : Bm) (cats : List String) (root : Nat) (rules : List Rule)
        (content : String) (cat : String),
      o.fetch (bm.url.getD ("")) = some content →
      matchRule o.evalCond bm content rules = some cat →
      ∀ c tr, classifySingleBookmark o none bm cats root rules ⟨c, tr⟩ =
        (⟨c + 2, tr ++ [(c, Effect.fetchContent (bm.url.getD (""))),
            (c + 1, Effect.createFolderPathFx cat root)]⟩,
         .ok (cat, o.folderId cat root))) := by
  constructor
  · intro ev bm content rules
    unfold matchRule
    cases rules with
    | nil => simp
    | cons r rest => simp [matchRuleGo_eq_find]
  · intro o bm cats root rules content cat hfetch hrule c tr
    unfold classifySingleBookmark callFetch callCreateFolderPath
    simp [M.bind, hfetch, hrule, emit, tick]

/-- Witness for C7: a rule on `url contains a.example` matches the
bookmark `https://a.example`; the classification returns the rule's
category after exactly a fetch and a folder resolution. -/
theorem matchRule_first_match_and_shortcircuit_witness :
    matchRule oRuleFix.evalCond ⟨2, ("a"), some ("https://a.example")⟩ ("content")
      [ruleFix] =
      ([ruleFix].find? (fun r => oRuleFix.evalCond r.condition
        ((some ("https://a.example")).getD ("")) ("a") ("content"))).map Rule.category ∧
    classifySingleBookmark oRuleFix none ⟨2, ("a"), some ("https://a.example")⟩ [] 1
      [ruleFix] ⟨0, []⟩ =
      (⟨2, [(0, Effect.fetchContent (((some ("https://a.example")) : Option String).getD (""))),
          (1, Effect.createFolderPathFx ("Rules/Hit") 1)]⟩,
       .ok (("Rules/Hit"), oRuleFix.folderId ("Rules/Hit") 1)) := by
  constructor
  · exact matchRule_first_match_and_shortcircuit.1 oRuleFix.evalCond
      ⟨2, ("a"), some ("https://a.example")⟩ ("content") [ruleFix]
  · exact matchRule_first_match_and_shortcircuit.2 oRuleFix
      ⟨2, ("a"), some ("https://a.example")⟩ [] 1 [ruleFix] ("content") ("Rules/Hit")
      (by decide) (by decide) 0 []

/-! ## Application lemmas for the collaborator calls -/

theorem callFetch_apply_some {o : Oracle} {url content : String}
    (h : o.fetch url = some content) (c : Nat) (tr : List (Nat × Effect)) :
    callFetch o url ⟨c, tr⟩ =
      (⟨c + 1, tr ++ [(c, Effect.fetchContent url)]⟩, .ok content) := by
  simp [callFetch, M.bind, h]

theorem callFetch_apply_none {o : Oracle} {url : String}
    (h : o.fetch url = none) (c : Nat) (tr : List (Nat × Effect)) :
    callFetch o url ⟨c, tr⟩ =
      (⟨c + 1, tr ++ [(c, Effect.fetchContent url)]⟩, .error (.failure ("fetch failed"))) := by
  simp [callFetch, M.bind, h]

theorem callCreateFolderPath_apply (o : Oracle) (path : String) (root : Nat)
    (c : Nat) (tr : List (Nat × Effect)) :
    callCreateFolderPath o path root ⟨c, tr⟩ =
      (⟨c + 1, tr ++ [(c, Effect.createFolderPathFx path root)]⟩,
       .ok (o.folderId path root)) := by
  simp [callCreateFolderPath, M.bind]

theorem callMove_apply (o : Oracle) (b f : Nat) (c : Nat) (tr : List (Nat × Effect)) :
    callMove o b f ⟨c, tr⟩ =
      (⟨c + 1, tr ++ [(c, Effect.moveBookmark b f)]⟩,
       if o.moveOk b f then .ok () else .error (.failure ("move failed"))) := by
  cases hmv : o.moveOk b f <;> simp [callMove, M.bind, hmv]

/-! ## Per-function trace lemmas -/

theorem emitsOnly_callFetch {P : Nat → Effect → Prop} (o : Oracle) (url : String)
    (hP : ∀ c, P c (Effect.fetchContent url)) : EmitsOnly P (callFetch o url) := by
  unfold callFetch
  refine emitsOnly_bind (emitsOnly_emit hP) (fun _ => ?_)
  refine emitsOnly_bind (emitsOnly_tick P) (fun _ => ?_)
  cases o.fetch url with
  | some content => exact emitsOnly_pure P content
  | none => exact emitsOnly_throwErr P _

theorem emitsOnly_callCreateFolderPath {P : Nat → Effect → Prop} (o : Oracle)
    (path : String) (root : Nat)
    (hP : ∀ c, P c (Effect.createFolderPathFx path root)) :
    EmitsOnly P (callCreateFolderPath o path root) := by
  unfold callCreateFolderPath
  refine emitsOnly_bind (emitsOnly_emit hP) (fun _ => ?_)
  exact emitsOnly_bind (emitsOnly_tick P) (fun _ => emitsOnly_pure P _)

theorem emitsOnly_callMove {P : Nat → Effect → Prop} (o : Oracle) (b f : Nat)
    (hP : ∀ c, P c (Effect.moveBookmark b f)) : EmitsOnly P (callMove o b f) := by
  unfold callMove
  refine emitsOnly_bind (emitsOnly_emit hP) (fun _ => ?_)
  refine emitsOnly_bind (emitsOnly_tick P) (fun _ => ?_)
  exact emitsOnly_ite (emitsOnly_pure P _) (emitsOnly_throwErr P _)

theorem emitsOnly_classifySingleBookmark {P : Nat → Effect → Prop} (o : Oracle)
    (T : AbortT) (bm : Bm) (cats : List String) (root : Nat) (rules : List Rule)
    (hP : ∀ c e, NotCCMove e → P c e) :
    EmitsOnly P (classifySingleBookmark o T bm cats root rules) := by
  unfold classifySingleBookmark
  refine emitsOnly_bind (emitsOnly_checkAbort P T) (fun _ => ?_)
  refine emitsOnly_bind (emitsOnly_callFetch o _ (fun c => hP c _ (by simp [NotCCMove])))
    (fun content => ?_)
  refine emitsOnly_bind (emitsOnly_checkAbort P T) (fun _ => ?_)
  cases matchRule o.evalCond bm content rules with
  | some cat =>
    exact emitsOnly_bind
      (emitsOnly_callCreateFolderPath o _ _ (fun c => hP c _ (by simp [NotCCMove])))
      (fun _ => emitsOnly_pure P _)
  | none =>
    refine emitsOnly_bind (emitsOnly_emit (fun c => hP c _ (by simp [NotCCMove])))
      (fun _ => ?_)
    refine emitsOnly_bind (emitsOnly_tick P) (fun _ => ?_)
    cases o.classify bm content cats with
    | none => exact emitsOnly_throwErr P _
    | some path =>
      refine emitsOnly_bind (emitsOnly_checkAbort P T) (fun _ => ?_)
      exact emitsOnly_bind
        (emitsOnly_callCreateFolderPath o _ _ (fun c => hP c _ (by simp [NotCCMove])))
        (fun _ => emitsOnly_pure P _)

theorem emitsOnly_processItem {P : Nat → Effect → Prop} (o : Oracle) (T : AbortT)
    (cats : List String) (root failsId : Nat) (rules : List Rule) (bm : Bm)
    (hP : ∀ c e, e ≠ Effect.llmCreateCategories → P c e) :
    EmitsOnly P (processItem o T cats root failsId rules bm) := by
  unfold processItem
  have hmv : ∀ b f c, P c (Effect.moveBookmark b f) := fun b f c => hP c _ (by simp)
  refine emitsOnly_bind (emitsOnly_attempt ?_) (fun r => ?_)
  · refine emitsOnly_bind (emitsOnly_checkAbort P T) (fun _ => ?_)
    refine emitsOnly_bind
      (emitsOnly_classifySingleBookmark o T bm cats root rules
        (fun c e he => hP c e he.1)) (fun pr => ?_)
    refine emitsOnly_bind (emitsOnly_checkAbort P T) (fun _ => ?_)
    exact emitsOnly_bind (emitsOnly_callMove o _ _ (hmv _ _)) (fun _ => emitsOnly_pure P _)
  · cases r with
    | ok b => exact emitsOnly_pure P b
    | error e =>
      cases e with
      | aborted => exact emitsOnly_throwErr P _
      | failure msg =>
        refine emitsOnly_bind (emitsOnly_checkAbort P T) (fun _ => ?_)
        exact emitsOnly_bind (emitsOnly_attempt (emitsOnly_callMove o _ _ (hmv _ _)))
          (fun _ => emitsOnly_pure P _)

theorem emitsOnly_processWindow {P : Nat → Effect → Prop} (o : Oracle) (T : AbortT)
    (cats : List String) (root failsId : Nat) (rules : List Rule) (batch : List Bm)
    (hP : ∀ c e, e ≠ Effect.llmCreateCategories → P c e) :
    EmitsOnly P (processWindow o T cats root failsId rules batch) := by
  induction batch with
  | nil => exact emitsOnly_pure P _
  | cons bm rest ih =>
    unfold processWindow
    refine emitsOnly_bind
      (emitsOnly_attempt (emitsOnly_processItem o T cats root failsId rules bm hP))
      (fun r => ?_)
    exact emitsOnly_bind ih (fun rs => emitsOnly_pure P _)

theorem emitsOnly_classifyLoop {P : Nat → Effect → Prop} (o : Oracle) (T : AbortT)
    (cats : List String) (root failsId : Nat) (rules : List Rule)
    (batches : List (List Bm))
    (hP : ∀ c e, e ≠ Effect.llmCreateCategories → P c e) :
    EmitsOnly P (classifyLoop o T cats root failsId rules batches) := by
  induction batches with
  | nil => exact emitsOnly_pure P _
  | cons batch rest ih =>
    unfold classifyLoop
    refine emitsOnly_bind (emitsOnly_checkAbort P T) (fun _ => ?_)
    refine emitsOnly_bind
      (emitsOnly_processWindow o T cats root failsId rules batch hP) (fun _ => ?_)
    exact emitsOnly_bind (emitsOnly_checkAbort P T) (fun _ => ih)

/-! ## Cancellation discipline of the classifying stage (towards C3) -/

theorem emitsOnly_guard_then {τ : Nat} {P : Nat → Effect → Prop} {m : M α}
    (hm : ∀ s, abortedAt (some τ) s.clock = false →
      ∃ Δ, (m s).1.trace = s.trace ++ Δ ∧ ∀ p ∈ Δ, P p.1 p.2) :
    EmitsOnly P (checkAbort (some τ) >>= fun _ => m) := by
  intro s
  by_cases h : abortedAt (some τ) s.clock = true
  · rw [bind_err (checkAbort_fire h)]
    exact ⟨[], by simp, by simp⟩
  · have h' : abortedAt (some τ) s.clock = false := by simpa using h
    rw [bind_ok (checkAbort_pass h')]
    exact hm s h'

theorem abortedAt_false_lt {τ c : Nat} (h : abortedAt (some τ) c = false) : c < τ := by
  simp [abortedAt] at h
  omega

/-- A move issued directly behind a passed abort check is issued before the
abort time. -/
theorem emitsOnly_moveBefore_guardMove (τ : Nat) (o : Oracle) (b f : Nat)
    {k : Unit → M α} (hk : ∀ a, EmitsOnly (MoveBefore τ) (k a)) :
    EmitsOnly (MoveBefore τ) (checkAbort (some τ) >>= fun _ => callMove o b f >>= k) := by
  apply emitsOnly_guard_then
  intro s h'
  obtain ⟨c, tr⟩ := s
  have hcτ : c < τ := abortedAt_false_lt h'
  have hcm := callMove_apply o b f c tr
  cases hmv : o.moveOk b f
  · rw [hmv] at hcm
    simp only [if_false, Bool.false_eq_true] at hcm
    rw [bind_err hcm]
    refine ⟨[(c, Effect.moveBookmark b f)], by simp, ?_⟩
    intro p hp
    simp at hp
    subst hp
    intro b' f' _
    exact hcτ
  · rw [hmv] at hcm
    simp only [if_true] at hcm
    rw [bind_ok hcm]
    obtain ⟨Δk, hk1, hk2⟩ := hk () ⟨c + 1, tr ++ [(c, Effect.moveBookmark b f)]⟩
    refine ⟨(c, Effect.moveBookmark b f) :: Δk, ?_, ?_⟩
    · simpa [List.append_assoc] using hk1
    · intro p hp
      rcases List.mem_cons.mp hp with h | h
      · subst h; intro b' f' _; exact hcτ
      · exact hk2 p h

/-- The same for the guarded quarantine move, whose own failure is
swallowed by an inner `try`. -/
theorem emitsOnly_moveBefore_guardAttemptMove (τ : Nat) (o : Oracle) (b f : Nat)
    {k : Except RunErr Unit → M α} (hk : ∀ a, EmitsOnly (MoveBefore τ) (k a)) :
    EmitsOnly (MoveBefore τ)
      (checkAbort (some τ) >>= fun _ => attempt (callMove o b f) >>= k) := by
  apply emitsOnly_guard_then
  intro s h'
  obtain ⟨c, tr⟩ := s
  have hcτ : c < τ := abortedAt_false_lt h'
  have hcm := callMove_apply o b f c tr
  have hstep : ∃ r, attempt (callMove o b f) ⟨c, tr⟩ =
      (⟨c + 1, tr ++ [(c, Effect.moveBookmark b f)]⟩, .ok r) := by
    cases hmv : o.moveOk b f
    · rw [hmv] at hcm
      simp only [if_false, Bool.false_eq_true] at hcm
      exact ⟨_, attempt_err hcm⟩
    · rw [hmv] at hcm
      simp only [if_true] at hcm
      exact ⟨_, attempt_ok hcm⟩
  obtain ⟨r, hr⟩ := hstep
  rw [bind_ok hr]
  obtain ⟨Δk, hk1, hk2⟩ := hk r ⟨c + 1, tr ++ [(c, Effect.moveBookmark b f)]⟩
  refine ⟨(c, Effect.moveBookmark b f) :: Δk, ?_, ?_⟩
  · simpa [List.append_assoc] using hk1
  · intro p hp
    rcases List.mem_cons.mp hp with h | h
    · subst h; intro b' f' _; exact hcτ
    · exact hk2 p h

theorem emitsOnly_processItem_moveBefore (τ : Nat) (o : Oracle) (cats : List String)
    (root failsId : Nat) (rules : List Rule) (bm : Bm) :
    EmitsOnly (MoveBefore τ) (processItem o (some τ) cats root failsId rules bm) := by
  have hnc : ∀ c e, NotCCMove e → MoveBefore τ c e := by
    intro c e he b f heq
    exact absurd heq (he.2 b f)
  unfold processItem
  refine emitsOnly_bind (emitsOnly_attempt ?_) (fun r => ?_)
  · refine emitsOnly_bind (emitsOnly_checkAbort _ _) (fun _ => ?_)
    refine emitsOnly_bind
      (emitsOnly_classifySingleBookmark o _ bm cats root rules hnc) (fun pr => ?_)
    exact emitsOnly_moveBefore_guardMove τ o bm.id pr.2 (fun _ => emitsOnly_pure _ _)
  · cases r with
    | ok b => exact emitsOnly_pure _ _
    | error e =>
      cases e with
      | aborted => exact emitsOnly_throwErr _ _
      | failure msg =>
        exact emitsOnly_moveBefore_guardAttemptMove τ o bm.id failsId
          (fun _ => emitsOnly_pure _ _)

theorem emitsOnly_processWindow_moveBefore (τ : Nat) (o : Oracle) (cats : List String)
    (root failsId : Nat) (rules : List Rule) (batch : List Bm) :
    EmitsOnly (MoveBefore τ) (processWindow o (some τ) cats root failsId rules batch) := by
  induction batch with
  | nil => exact emitsOnly_pure _ _
  | cons bm rest ih =>
    unfold processWindow
    refine emitsOnly_bind
      (emitsOnly_attempt (emitsOnly_processItem_moveBefore τ o cats root failsId rules bm))
      (fun r => ?_)
    exact emitsOnly_bind ih (fun rs => emitsOnly_pure _ _)

theorem emitsOnly_classifyLoop_moveBefore (τ : Nat) (o : Oracle) (cats : List String)
    (root failsId : Nat) (rules : List Rule) (batches : List (List Bm)) :
    EmitsOnly (MoveBefore τ) (classifyLoop o (some τ) cats root failsId rules batches) := by
  induction batches with
  | nil => exact emitsOnly_pure _ _
  | cons batch rest ih =>
    unfold classifyLoop
    refine emitsOnly_bind (emitsOnly_checkAbort _ _) (fun _ => ?_)
    refine emitsOnly_bind
      (emitsOnly_processWindow_moveBefore τ o cats root failsId rules batch) (fun _ => ?_)
    exact emitsOnly_bind (emitsOnly_checkAbort _ _) (fun _ => ih)

theorem processItem_aborted (o : Oracle) (τ : Nat) (cats : List String)
    (root failsId : Nat) (rules : List Rule) (bm : Bm) (s : RunSt)
    (h : abortedAt (some τ) s.clock = true) :
    processItem o (some τ) cats root failsId rules bm s = (s, .error .aborted) := by
  unfold processItem
  rw [bind_ok (attempt_err (bind_err (checkAbort_fire h)))]
  rfl

theorem classifyLoop_aborted (o : Oracle) (τ : Nat) (cats : List String)
    (root failsId : Nat) (rules : List Rule) (batches : List (List Bm)) (s : RunSt)
    (h : abortedAt (some τ) s.clock = true) :
    (classifyLoop o (some τ) cats root failsId rules batches s).1 = s := by
  cases batches with
  | nil => rfl
  | cons batch rest =>
    unfold classifyLoop
    rw [bind_err (checkAbort_fire h)]

/-- Claim C3: once the abort signal is set (the clock has reached the abort
time `τ`), an item whose processing has not yet started runs no collaborator
call at all (it throws `Aborted` with the state untouched); at a window
boundary the loop stops without further effects; and every bookmark move
the classifying loop ever issues is issued strictly before the abort time —
in-flight results observed after the abort are discarded, never moved. -/
theorem classifyLoop_cancellation (o : Oracle) (τ : Nat) (cats : List String)
    (root failsId : Nat) (rules : List Rule) :
    (∀ (bm : Bm) (s : RunSt), abortedAt (some τ) s.clock = true →
      processItem o (some τ) cats root failsId rules bm s = (s, .error .aborted)) ∧
    (∀ (batches : List (List Bm)) (s : RunSt), abortedAt (some τ) s.clock = true →
      (classifyLoop o (some τ) cats root failsId rules batches s).1 = s) ∧
    (∀ (batches : List (List Bm)) (s : RunSt) (t b f : Nat),
      (t, Effect.moveBookmark b f) ∈
        (classifyLoop o (some τ) cats root failsId rules batches s).1.trace →
      (t, Effect.moveBookmark b f) ∈ s.trace ∨ t < τ) := by
  refine ⟨fun bm s h => processItem_aborted o τ cats root failsId rules bm s h,
    fun batches s h => classifyLoop_aborted o τ cats root failsId rules batches s h,
    ?_⟩
  intro batches s t b f hmem
  obtain ⟨Δ, h1, h2⟩ := emitsOnly_classifyLoop_moveBefore τ o cats root failsId rules batches s
  rw [h1] at hmem
  rcases List.mem_append.mp hmem with h | h
  · exact Or.inl h
  · exact Or.inr (h2 _ h b f rfl)

/-- Witness for C3 at abort time `τ = 1` with a clock already at or past
it. -/
theorem classifyLoop_cancellation_witness :
    processItem oFix (some 1) [("Tech/AI")] 1 99 []
      ⟨2, ("a"), some ("https://a.example")⟩ ⟨1, []⟩ = (⟨1, []⟩, .error .aborted) ∧
    (classifyLoop oFix (some 1) [("Tech/AI")] 1 99 []
      [[⟨2, ("a"), some ("https://a.example")⟩]] ⟨1, []⟩).1 = ⟨1, []⟩ ∧
    ((0, Effect.moveBookmark 2 42) ∈ ([(0, Effect.moveBookmark 2 42)] : List (Nat × Effect)) ∨
      0 < 1) := by
  refine ⟨?_, ?_, ?_⟩
  · exact (classifyLoop_cancellation oFix 1 [("Tech/AI")] 1 99 []).1 _ _ (by decide)
  · exact (classifyLoop_cancellation oFix 1 [("Tech/AI")] 1 99 []).2.1 _ _ (by decide)
  · exact (classifyLoop_cancellation oFix 1 [("Tech/AI")] 1 99 []).2.2
      [[⟨2, ("a"), some ("https://a.example")⟩]] ⟨5, [(0, Effect.moveBookmark 2 42)]⟩
      0 2 42 (by decide)

/-! ## Abort-free behaviour of the classifying stage (towards C2) -/

/-- With no abort and a functioning move collaborator, every item settles
successfully: it is moved — to its resolved category folder, or to the
Failures folder when its classification failed — and the per-item task
returns instead of throwing. -/
theorem processItem_none (o : Oracle) (cats : List String) (root failsId : Nat)
    (rules : List Rule) (bm : Bm) (hmv : ∀ i f, o.moveOk i f = true) (s : RunSt) :
    ∃ s' b, processItem o none cats root failsId rules bm s = (s', .ok b) ∧
      (∃ Δ, s'.trace = s.trace ++ Δ) ∧
      ∃ t, (t, Effect.moveBookmark bm.id
        (destFolder o cats rules root failsId bm)) ∈ s'.trace := by
  obtain ⟨c, tr⟩ := s
  cases hfetch : o.fetch (bm.url.getD ("")) with
  | none =>
    have hpi : processItem o none cats root failsId rules bm ⟨c, tr⟩ =
        (⟨c + 2, tr ++ [(c, Effect.fetchContent (bm.url.getD (""))),
          (c + 1, Effect.moveBookmark bm.id failsId)]⟩, .ok false) := by
      simp [processItem, classifySingleBookmark, callFetch, callMove, attempt,
        M.bind, hfetch, hmv]
    have hdest : destFolder o cats rules root failsId bm = failsId := by
      simp [destFolder, resolvedPath, hfetch]
    exact ⟨_, false, hpi, ⟨_, rfl⟩, c + 1, by rw [hdest]; simp⟩
  | some content =>
    cases hrule : matchRule o.evalCond bm content rules with
    | some cat =>
      have hpi : processItem o none cats root failsId rules bm ⟨c, tr⟩ =
          (⟨c + 3, tr ++ [(c, Effect.fetchContent (bm.url.getD (""))),
            (c + 1, Effect.createFolderPathFx cat root),
            (c + 2, Effect.moveBookmark bm.id (o.folderId cat root))]⟩, .ok true) := by
        simp [processItem, classifySingleBookmark, callFetch, callCreateFolderPath,
          callMove, attempt, M.bind, hfetch, hrule, hmv]
      have hdest : destFolder o cats rules root failsId bm = o.folderId cat root := by
        simp [destFolder, resolvedPath, hfetch, hrule]
      exact ⟨_, true, hpi, ⟨_, rfl⟩, c + 2, by rw [hdest]; simp⟩
    | none =>
      cases hllm : o.classify bm content cats with
      | some path =>
        have hpi : processItem o none cats root failsId rules bm ⟨c, tr⟩ =
            (⟨c + 4, tr ++ [(c, Effect.fetchContent (bm.url.getD (""))),
              (c + 1, Effect.llmClassify bm.id),
              (c + 2, Effect.createFolderPathFx path root),
              (c + 3, Effect.moveBookmark bm.id (o.folderId path root))]⟩, .ok true) := by
          simp [processItem, classifySingleBookmark, callFetch, callCreateFolderPath,
            callMove, attempt, M.bind, hfetch, hrule, hllm, hmv]
        have hdest : destFolder o cats rules root failsId bm = o.folderId path root := by
          simp [destFolder, resolvedPath, hfetch, hrule, hllm]
        exact ⟨_, true, hpi, ⟨_, rfl⟩, c + 3, by rw [hdest]; simp⟩
      | none =>
        have hpi : processItem o none cats root failsId rules bm ⟨c, tr⟩ =
            (⟨c + 3, tr ++ [(c, Effect.fetchContent (bm.url.getD (""))),
              (c + 1, Effect.llmClassify bm.id),
              (c + 2, Effect.moveBookmark bm.id failsId)]⟩, .ok false) := by
          simp [processItem, classifySingleBookmark, callFetch, callMove, attempt,
            M.bind, hfetch, hrule, hllm, hmv]
        have hdest : destFolder o cats rules root failsId bm = failsId := by
          simp [destFolder, resolvedPath, hfetch, hrule, hllm]
        exact ⟨_, false, hpi, ⟨_, rfl⟩, c + 2, by rw [hdest]; simp⟩

theorem processWindow_none (o : Oracle) (cats : List String) (root failsId : Nat)
    (rules : List Rule) (hmv : ∀ i f, o.moveOk i f = true) :
    ∀ (batch : List Bm) (s : RunSt),
      ∃ s' rs, processWindow o none cats root failsId rules batch s = (s', .ok rs) ∧
        (∃ Δ, s'.trace = s.trace ++ Δ) ∧
        ∀ bm ∈ batch, ∃ t, (t, Effect.moveBookmark bm.id
          (destFolder o cats rules root failsId bm)) ∈ s'.trace := by
  intro batch
  induction batch with
  | nil => exact fun s => ⟨s, [], rfl, ⟨[], by simp⟩, by simp⟩
  | cons bm rest ih =>
    intro s
    obtain ⟨s₁, b, hpi, ⟨Δ₁, hΔ₁⟩, t₁, hm₁⟩ :=
      processItem_none o cats root failsId rules bm hmv s
    obtain ⟨s₂, rs, hpw, ⟨Δ₂, hΔ₂⟩, hrest⟩ := ih s₁
    refine ⟨s₂, .ok b :: rs, ?_, ⟨Δ₁ ++ Δ₂, by rw [hΔ₂, hΔ₁, List.append_assoc]⟩, ?_⟩
    · unfold processWindow
      rw [bind_ok (attempt_ok hpi), bind_ok hpw]
      rfl
    · intro x hx
      rcases List.mem_cons.mp hx with h | h
      · subst h
        exact ⟨t₁, by rw [hΔ₂]; exact List.mem_append_left _ hm₁⟩
      · exact hrest x h

theorem classifyLoop_none (o : Oracle) (cats : List String) (root failsId : Nat)
    (rules : List Rule) (hmv : ∀ i f, o.moveOk i f = true) :
    ∀ (batches : List (List Bm)) (s : RunSt),
      ∃ s', classifyLoop o none cats root failsId rules batches s = (s', .ok ()) ∧
        (∃ Δ, s'.trace = s.trace ++ Δ) ∧
        ∀ batch ∈ batches, ∀ bm ∈ batch, ∃ t, (t, Effect.moveBookmark bm.id
          (destFolder o cats rules root failsId bm)) ∈ s'.trace := by
  intro batches
  induction batches with
  | nil => exact fun s => ⟨s, rfl, ⟨[], by simp⟩, by simp⟩
  | cons batch rest ih =>
    intro s
    obtain ⟨s₁, rs, hpw, ⟨Δ₁, hΔ₁⟩, hbatch⟩ :=
      processWindow_none o cats root failsId rules hmv batch s
    obtain ⟨s₂, hloop, ⟨Δ₂, hΔ₂⟩, hrest⟩ := ih s₁
    refine ⟨s₂, ?_, ⟨Δ₁ ++ Δ₂, by rw [hΔ₂, hΔ₁, List.append_assoc]⟩, ?_⟩
    · unfold classifyLoop
      rw [bind_ok (checkAbort_none_apply s), bind_ok hpw,
        bind_ok (checkAbort_none_apply s₁)]
      exact hloop
    · intro w hw bm hbm
      rcases List.mem_cons.mp hw with h | h
      · subst h
        obtain ⟨t, ht⟩ := hbatch bm hbm
        exact ⟨t, by rw [hΔ₂]; exact List.mem_append_left _ ht⟩
      · exact hrest w h bm hbm

/-- Claim C2: in an abort-free run whose move collaborator functions, for
any window of the classifying stage in which exactly one item's
classification fails, the loop completes without throwing; the other items
of the window are each moved into their resolved category folder and the
failing item is moved into the Failures folder (and every other window is
still processed — the loop's success covers the whole batch list). -/
theorem classifyLoop_failure_isolation (o : Oracle) (cats : List String)
    (root failsId : Nat) (rules : List Rule) (bs : List Bm) (conc : Nat)
    (hmv : ∀ i f, o.moveOk i f = true)
    (W : List Bm) (hW : W ∈ batchArray bs conc) (j : Bm) (hj : j ∈ W)
    (hjfail : resolvedPath o cats rules j = none)
    (hothers : ∀ i ∈ W, i ≠ j → (resolvedPath o cats rules i).isSome = true) (s : RunSt) :
    ∃ s', classifyLoop o none cats root failsId rules (batchArray bs conc) s =
        (s', .ok ()) ∧
      (∀ i ∈ W, i ≠ j → ∃ t p, resolvedPath o cats rules i = some p ∧
        (t, Effect.moveBookmark i.id (o.folderId p root)) ∈ s'.trace) ∧
      (∃ t, (t, Effect.moveBookmark j.id failsId) ∈ s'.trace) := by
  obtain ⟨s', hloop, _, hmoves⟩ :=
    classifyLoop_none o cats root failsId rules hmv (batchArray bs conc) s
  refine ⟨s', hloop, ?_, ?_⟩
  · intro i hi hne
    obtain ⟨p, hp⟩ := Option.isSome_iff_exists.mp (hothers i hi hne)
    obtain ⟨t, ht⟩ := hmoves W hW i hi
    rw [show destFolder o cats rules root failsId i = o.folderId p root by
      simp [destFolder, hp]] at ht
    exact ⟨t, p, hp, ht⟩
  · obtain ⟨t, ht⟩ := hmoves W hW j hj
    rw [show destFolder o cats rules root failsId j = failsId by
      simp [destFolder, hjfail]] at ht
    exact ⟨t, ht⟩

/-- Witness for C2: a single window of two bookmarks in which exactly the
second one's content fetch fails. -/
theorem classifyLoop_failure_isolation_witness :
    ∃ s', classifyLoop oFix none [("Tech/AI"), ("News")] 1 99 []
        (batchArray bmsFix 10) ⟨0, []⟩ = (s', .ok ()) ∧
      (∀ i ∈ bmsFix, i ≠ (⟨3, ("b"), some ("https://b.example")⟩ : Bm) → ∃ t p,
        resolvedPath oFix [("Tech/AI"), ("News")] [] i = some p ∧
        (t, Effect.moveBookmark i.id (oFix.folderId p 1)) ∈ s'.trace) ∧
      (∃ t, (t, Effect.moveBookmark (Bm.id ⟨3, ("b"), some ("https://b.example")⟩) 99)
        ∈ s'.trace) := by
  exact classifyLoop_failure_isolation oFix [("Tech/AI"), ("News")] 1 99 [] bmsFix 10
    (fun i f => rfl) bmsFix (by decide) ⟨3, ("b"), some ("https://b.example")⟩ (by decide)
    (by decide) (by decide) ⟨0, []⟩

/-! ## Trace lemmas for the remaining stages (towards C1 and C4) -/

theorem emitsOnly_fetchOneSample {P : Nat → Effect → Prop} (o : Oracle) (bm : Bm)
    (hP : ∀ c e, e ≠ Effect.llmCreateCategories → P c e) :
    EmitsOnly P (fetchOneSample o bm) := by
  unfold fetchOneSample
  cases bm.url with
  | none => exact emitsOnly_pure P _
  | some u =>
    refine emitsOnly_bind (emitsOnly_emit (fun c => hP c _ (by simp))) (fun _ => ?_)
    exact emitsOnly_bind (emitsOnly_tick P) (fun _ => emitsOnly_pure P _)

theorem emitsOnly_fetchSampleBatch {P : Nat → Effect → Prop} (o : Oracle)
    (batch : List Bm) (hP : ∀ c e, e ≠ Effect.llmCreateCategories → P c e) :
    EmitsOnly P (fetchSampleBatch o batch) := by
  induction batch with
  | nil => exact emitsOnly_pure P _
  | cons bm rest ih =>
    unfold fetchSampleBatch
    refine emitsOnly_bind (emitsOnly_fetchOneSample o bm hP) (fun _ => ?_)
    exact emitsOnly_bind ih (fun _ => emitsOnly_pure P _)

theorem emitsOnly_fetchBatchContentGo {P : Nat → Effect → Prop} (o : Oracle)
    (T : AbortT) (batches : List (List Bm))
    (hP : ∀ c e, e ≠ Effect.llmCreateCategories → P c e) :
    EmitsOnly P (fetchBatchContentGo o T batches) := by
  induction batches with
  | nil => exact emitsOnly_pure P _
  | cons batch rest ih =>
    unfold fetchBatchContentGo
    refine emitsOnly_bind (emitsOnly_checkAbort P T) (fun _ => ?_)
    refine emitsOnly_bind (emitsOnly_fetchSampleBatch o batch hP) (fun _ => ?_)
    refine emitsOnly_bind (emitsOnly_tick P) (fun _ => ?_)
    exact emitsOnly_bind ih (fun _ => emitsOnly_pure P _)

theorem emitsOnly_createCategoryFolders {P : Nat → Effect → Prop} (o : Oracle)
    (root : Nat) (categories : List String)
    (hP : ∀ c e, e ≠ Effect.llmCreateCategories → P c e) :
    EmitsOnly P (createCategoryFolders o root categories) := by
  induction categories with
  | nil => exact emitsOnly_pure P _
  | cons cat rest ih =>
    unfold createCategoryFolders
    exact emitsOnly_bind
      (emitsOnly_callCreateFolderPath o _ _ (fun c => hP c _ (by simp))) (fun _ => ih)

theorem emitsOnly_removeEmptyFolders {P : Nat → Effect → Prop} (ids : List Nat)
    (hP : ∀ c e, e ≠ Effect.llmCreateCategories → P c e) :
    EmitsOnly P (removeEmptyFolders ids) := by
  induction ids with
  | nil => exact emitsOnly_pure P _
  | cons i rest ih =>
    unfold removeEmptyFolders
    refine emitsOnly_bind (emitsOnly_emit (fun c => hP c _ (by simp))) (fun _ => ?_)
    exact emitsOnly_bind (emitsOnly_tick P) (fun _ => ih)

theorem emitsOnly_classifyingStage {P : Nat → Effect → Prop} (o : Oracle) (T : AbortT)
    (cfg : Config) (allBookmarks : List Bm) (categories : List String) (root : Nat)
    (hP : ∀ c e, e ≠ Effect.llmCreateCategories → P c e) :
    EmitsOnly P (classifyingStage o T cfg allBookmarks categories root) := by
  unfold classifyingStage
  refine emitsOnly_bind (emitsOnly_checkAbort P T) (fun _ => ?_)
  refine emitsOnly_bind
    (emitsOnly_callCreateFolderPath o _ _ (fun c => hP c _ (by simp))) (fun _ => ?_)
  exact emitsOnly_classifyLoop o T _ _ _ _ _ hP

theorem emitsOnly_completionStage {P : Nat → Effect → Prop} (o : Oracle) (cfg : Config)
    (categories : List String) (root : Nat)
    (hP : ∀ c e, e ≠ Effect.llmCreateCategories → P c e) :
    EmitsOnly P (completionStage o cfg categories root) := by
  unfold completionStage
  refine emitsOnly_bind (emitsOnly_emit (fun c => hP c _ (by simp))) (fun _ => ?_)
  refine emitsOnly_bind (emitsOnly_tick P) (fun _ => ?_)
  refine emitsOnly_bind (emitsOnly_removeEmptyFolders _ hP) (fun _ => ?_)
  refine emitsOnly_bind
    (emitsOnly_attempt (emitsOnly_callCreateFolderPath o _ _ (fun c => hP c _ (by simp))))
    (fun _ => ?_)
  refine emitsOnly_bind (emitsOnly_emit (fun c => hP c _ (by simp))) (fun _ => ?_)
  exact emitsOnly_bind (emitsOnly_tick P) (fun _ => emitsOnly_pure P _)

theorem emitsOnly_requireOk (P : Nat → Effect → Prop) (ok : Bool) (msg : String) :
    EmitsOnly P (requireOk ok msg) := by
  unfold requireOk
  cases ok
  · exact emitsOnly_throwErr P _
  · exact emitsOnly_pure P _

theorem emitsOnly_failIfZero (P : Nat → Effect → Prop) (n : Nat) (msg : String) :
    EmitsOnly P (failIfZero n msg) := by
  unfold failIfZero
  by_cases h : n = 0
  · rw [if_pos h]
    exact emitsOnly_throwErr P _
  · rw [if_neg h]
    exact emitsOnly_pure P _

theorem emitsOnly_parsePredefinedOrFail (P : Nat → Effect → Prop) (text : String) :
    EmitsOnly P (parsePredefinedOrFail text) := by
  unfold parsePredefinedOrFail
  by_cases h : (parsePredefined text).length = 0
  · intro s
    refine ⟨[], ?_, by simp⟩
    simp [h]
  · intro s
    refine ⟨[], ?_, by simp⟩
    simp [h]

/-- The categorizing stage under an arbitrary predicate that holds of every
effect (used with the trivially-true predicate). -/
theorem emitsOnly_categorizingStage_any {P : Nat → Effect → Prop} (o : Oracle)
    (cfg : Config) (sampleData : List (Option SampleItem)) (hP : ∀ c e, P c e) :
    EmitsOnly P (categorizingStage o cfg sampleData) := by
  unfold categorizingStage
  by_cases hb : 0 < (jsTrim cfg.predefinedCategories).length
  · rw [if_pos hb]
    exact emitsOnly_parsePredefinedOrFail P _
  · rw [if_neg hb]
    refine emitsOnly_bind (emitsOnly_failIfZero P _ _) (fun _ => ?_)
    refine emitsOnly_bind (emitsOnly_emit (fun c => hP c _)) (fun _ => ?_)
    refine emitsOnly_bind (emitsOnly_tick P) (fun _ => ?_)
    cases o.createCats (sampleData.filterMap id) with
    | none => exact emitsOnly_throwErr P _
    | some cats => exact emitsOnly_pure P _

/-- With a non-empty trimmed predefined list the categorizing stage takes
the predefined branch, which emits nothing at all. -/
theorem emitsOnly_categorizingStage_pre {P : Nat → Effect → Prop} (o : Oracle)
    (cfg : Config) (sampleData : List (Option SampleItem))
    (hpre : 0 < (jsTrim cfg.predefinedCategories).length) :
    EmitsOnly P (categorizingStage o cfg sampleData) := by
  unfold categorizingStage
  rw [if_pos hpre]
  exact emitsOnly_parsePredefinedOrFail P _

theorem emitsOnly_afterCategories {P : Nat → Effect → Prop} (o : Oracle) (T : AbortT)
    (cfg : Config) (allBookmarks : List Bm) (categories : List String)
    (hP : ∀ c e, e ≠ Effect.llmCreateCategories → P c e) :
    EmitsOnly P (afterCategories o T cfg allBookmarks categories) := by
  unfold afterCategories
  refine emitsOnly_bind (emitsOnly_emit (fun c => hP c _ (by simp))) (fun _ => ?_)
  refine emitsOnly_bind (emitsOnly_tick _) (fun _ => ?_)
  cases o.root with
  | none => exact emitsOnly_throwErr _ _
  | some rootFolderId =>
    refine emitsOnly_bind (emitsOnly_createCategoryFolders o _ _ hP) (fun _ => ?_)
    refine emitsOnly_bind (emitsOnly_classifyingStage o T cfg _ _ _ hP) (fun _ => ?_)
    exact emitsOnly_completionStage o cfg _ _ hP

/-- `_runInitialization` only appends to the trace. -/
theorem emitsOnly_runInner_any (o : Oracle) (T : AbortT) (cfg : Config) :
    EmitsOnly (fun _ _ => True) (runInner o T cfg) := by
  have hP : ∀ (c : Nat) (e : Effect), e ≠ Effect.llmCreateCategories →
      (fun (_ : Nat) (_ : Effect) => True) c e := fun _ _ _ => trivial
  unfold runInner runInnerTail
  refine emitsOnly_bind (emitsOnly_checkAbort _ T) (fun _ => ?_)
  refine emitsOnly_bind (emitsOnly_emit (fun _ => trivial)) (fun _ => ?_)
  refine emitsOnly_bind (emitsOnly_tick _) (fun _ => ?_)
  refine emitsOnly_bind (emitsOnly_requireOk _ _ _) (fun _ => ?_)
  refine emitsOnly_bind (emitsOnly_checkAbort _ T) (fun _ => ?_)
  refine emitsOnly_bind (emitsOnly_emit (fun _ => trivial)) (fun _ => ?_)
  refine emitsOnly_bind (emitsOnly_tick _) (fun _ => ?_)
  refine emitsOnly_bind (emitsOnly_failIfZero _ _ _) (fun _ => ?_)
  refine emitsOnly_bind (emitsOnly_checkAbort _ T) (fun _ => ?_)
  refine emitsOnly_bind (emitsOnly_checkAbort _ T) (fun _ => ?_)
  refine emitsOnly_bind (emitsOnly_fetchBatchContentGo o T _ hP) (fun sampleData => ?_)
  refine emitsOnly_bind (emitsOnly_checkAbort _ T) (fun _ => ?_)
  refine emitsOnly_bind (emitsOnly_categorizingStage_any o cfg _ (fun _ _ => trivial))
    (fun categories => ?_)
  exact emitsOnly_afterCategories o T cfg _ _ hP

/-- With a non-empty trimmed predefined list, no call of the run — whatever
the abort time and the collaborators do — is the LLM category-generation
call. -/
theorem emitsOnly_runInner_noCC (o : Oracle) (T : AbortT) (cfg : Config)
    (hpre : 0 < (jsTrim cfg.predefinedCategories).length) :
    EmitsOnly (fun _ e => e ≠ Effect.llmCreateCategories) (runInner o T cfg) := by
  have hP : ∀ (c : Nat) (e : Effect), e ≠ Effect.llmCreateCategories →
      e ≠ Effect.llmCreateCategories := fun _ _ h => h
  unfold runInner runInnerTail
  refine emitsOnly_bind (emitsOnly_checkAbort _ T) (fun _ => ?_)
  refine emitsOnly_bind (emitsOnly_emit (fun _ => by simp)) (fun _ => ?_)
  refine emitsOnly_bind (emitsOnly_tick _) (fun _ => ?_)
  refine emitsOnly_bind (emitsOnly_requireOk _ _ _) (fun _ => ?_)
  refine emitsOnly_bind (emitsOnly_checkAbort _ T) (fun _ => ?_)
  refine emitsOnly_bind (emitsOnly_emit (fun _ => by simp)) (fun _ => ?_)
  refine emitsOnly_bind (emitsOnly_tick _) (fun _ => ?_)
  refine emitsOnly_bind (emitsOnly_failIfZero _ _ _) (fun _ => ?_)
  refine emitsOnly_bind (emitsOnly_checkAbort _ T) (fun _ => ?_)
  refine emitsOnly_bind (emitsOnly_checkAbort _ T) (fun _ => ?_)
  refine emitsOnly_bind (emitsOnly_fetchBatchContentGo o T _ hP) (fun sampleData => ?_)
  refine emitsOnly_bind (emitsOnly_checkAbort _ T) (fun _ => ?_)
  refine emitsOnly_bind (emitsOnly_categorizingStage_pre o cfg _ hpre)
    (fun categories => ?_)
  exact emitsOnly_afterCategories o T cfg _ _ hP

/-! ## Deterministic stepping of the run prefix (towards C4 and C8) -/

theorem fetchOneSample_ok (o : Oracle) (bm : Bm) (c : Nat) (tr : List (Nat × Effect)) :
    ∃ c' Δ r, fetchOneSample o bm ⟨c, tr⟩ = (⟨c', tr ++ Δ⟩, .ok r) := by
  cases hu : bm.url with
  | none => exact ⟨c, [], none, by simp [fetchOneSample, hu, M.pure]⟩
  | some u =>
    exact ⟨c + 1, [(c, Effect.fetchContent u)],
      (o.fetch u).map (fun ct => ⟨bm.title, u, ct⟩),
      by simp [fetchOneSample, hu, M.bind]⟩

theorem fetchSampleBatch_ok (o : Oracle) :
    ∀ (batch : List Bm) (c : Nat) (tr : List (Nat × Effect)),
      ∃ c' Δ rs, fetchSampleBatch o batch ⟨c, tr⟩ = (⟨c', tr ++ Δ⟩, .ok rs) := by
  intro batch
  induction batch with
  | nil => exact fun c tr => ⟨c, [], [], by simp [fetchSampleBatch, M.pure]⟩
  | cons bm rest ih =>
    intro c tr
    obtain ⟨c₁, Δ₁, r₁, h₁⟩ := fetchOneSample_ok o bm c tr
    obtain ⟨c₂, Δ₂, rs, h₂⟩ := ih c₁ (tr ++ Δ₁)
    refine ⟨c₂, Δ₁ ++ Δ₂, r₁ :: rs, ?_⟩
    unfold fetchSampleBatch
    rw [bind_ok h₁, bind_ok h₂, List.append_assoc]
    rfl

theorem fetchBatchContentGo_none_ok (o : Oracle) :
    ∀ (batches : List (List Bm)) (c : Nat) (tr : List (Nat × Effect)),
      ∃ c' Δ rs, fetchBatchContentGo o none batches ⟨c, tr⟩ = (⟨c', tr ++ Δ⟩, .ok rs) := by
  intro batches
  induction batches with
  | nil => exact fun c tr => ⟨c, [], [], by simp [fetchBatchContentGo, M.pure]⟩
  | cons batch rest ih =>
    intro c tr
    obtain ⟨c₁, Δ₁, rs₁, h₁⟩ := fetchSampleBatch_ok o batch c tr
    obtain ⟨c₂, Δ₂, rs₂, h₂⟩ := ih (c₁ + 1) (tr ++ Δ₁)
    refine ⟨c₂, Δ₁ ++ Δ₂, rs₁ ++ rs₂, ?_⟩
    unfold fetchBatchContentGo
    rw [bind_ok (checkAbort_none_apply _), bind_ok h₁,
      bind_ok (tick_apply c₁ (tr ++ Δ₁)), bind_ok h₂, List.append_assoc]
    rfl

theorem fetchBatchContent_none_ok (o : Oracle) (bms : List Bm) (c : Nat)
    (tr : List (Nat × Effect)) :
    ∃ c' Δ rs, fetchBatchContent o none bms ⟨c, tr⟩ = (⟨c', tr ++ Δ⟩, .ok rs) :=
  fetchBatchContentGo_none_ok o (batchArray bms BATCH_SIZE) c tr

theorem createCategoryFolders_effects (o : Oracle) (root : Nat) :
    ∀ (categories : List String) (s : RunSt),
      ∃ s', createCategoryFolders o root categories s = (s', .ok ()) ∧
        (∃ Δ, s'.trace = s.trace ++ Δ) ∧
        ∀ cat ∈ categories, ∃ t, (t, Effect.createFolderPathFx cat root) ∈ s'.trace := by
  intro categories
  induction categories with
  | nil => exact fun s => ⟨s, rfl, ⟨[], by simp⟩, by simp⟩
  | cons cat rest ih =>
    intro s
    obtain ⟨c, tr⟩ := s
    obtain ⟨s', hrun, ⟨Δ, hΔ⟩, hmem⟩ :=
      ih ⟨c + 1, tr ++ [(c, Effect.createFolderPathFx cat root)]⟩
    refine ⟨s', ?_, ⟨(c, Effect.createFolderPathFx cat root) :: Δ, by simp [hΔ]⟩, ?_⟩
    · unfold createCategoryFolders
      rw [bind_ok (callCreateFolderPath_apply o cat root c tr)]
      exact hrun
    · intro x hx
      rcases List.mem_cons.mp hx with h | h
      · subst h
        exact ⟨c, by rw [hΔ]; simp⟩
      · exact hmem x h

theorem parsePredefinedOrFail_nil {text : String}
    (h : parsePredefined text = []) (s : RunSt) :
    parsePredefinedOrFail text s =
      (s, .error (.failure ("No valid predefined categories found"))) := by
  simp [parsePredefinedOrFail, h]

theorem categorizingStage_pre_apply (o : Oracle) (cfg : Config)
    (sampleData : List (Option SampleItem))
    (hpre : 0 < (jsTrim cfg.predefinedCategories).length)
    (hne : (parsePredefined cfg.predefinedCategories).length ≠ 0) (s : RunSt) :
    categorizingStage o cfg sampleData s =
      (s, .ok (parsePredefined cfg.predefinedCategories)) := by
  simp [categorizingStage, if_pos hpre, parsePredefinedOrFail, hne]

/-- Stages 1–2 with a functioning backup and an empty enumeration: the run
fails with the no-bookmarks error right after the enumeration call. -/
theorem runInner_empty_enumeration {o : Oracle} {cfg : Config}
    (harc : o.archiveOk = true) (hempty : flattenBookmarks o.tree cfg.excludedDirs = [])
    (c : Nat) (tr : List (Nat × Effect)) :
    runInner o none cfg ⟨c, tr⟩ =
      (⟨c + 2, tr ++ [(c, Effect.createArchive),
        (c + 1, Effect.getAllBookmarks cfg.excludedDirs)]⟩,
       .error (.failure ("No bookmarks found to classify"))) := by
  simp [runInner, requireOk, failIfZero, harc, hempty, M.bind]

/-- Stages 1–2 with a functioning backup and a non-empty enumeration: the
run proceeds into the tail from the post-enumeration state. -/
theorem runInner_nonempty_enumeration {o : Oracle} {cfg : Config}
    (harc : o.archiveOk = true) (hne : flattenBookmarks o.tree cfg.excludedDirs ≠ [])
    (c : Nat) (tr : List (Nat × Effect)) :
    runInner o none cfg ⟨c, tr⟩ =
      runInnerTail o none cfg ((flattenBookmarks o.tree cfg.excludedDirs).map BTree.toBm)
        ⟨c + 2, tr ++ [(c, Effect.createArchive),
          (c + 1, Effect.getAllBookmarks cfg.excludedDirs)]⟩ := by
  have hlen : (flattenBookmarks o.tree cfg.excludedDirs).length ≠ 0 := by
    simpa using fun h => hne (List.eq_nil_of_length_eq_zero h)
  have hif : failIfZero (flattenBookmarks o.tree cfg.excludedDirs).length
      ("No bookmarks found to classify") = M.pure () := by
    unfold failIfZero
    rw [if_neg hlen]
    rfl
  simp [runInner, requireOk, harc, hif, M.bind, M.pure]

/-! ## The run guard and guaranteed cleanup (C1) -/

/-- Claim C1: starting a run while one is already active fails with the
already-in-progress error, leaves the service state untouched and performs
no work; otherwise the in-memory flag is set before any collaborator call
(the trace begins with `flagProcessing true`), and on every termination —
success, user cancellation, or a thrown error, under every collaborator
behaviour and every abort time — the `finally` block resets the flag,
clears the abort controller and persists `isProcessing: false` as the
final actions of the run. -/
theorem runInitialization_guard_and_cleanup (o : Oracle) (T : AbortT) (cfg : Config) :
    (∀ st : SvcState, st.isProcessing = true →
      runInitialization st o T cfg =
        ⟨st, .error (.failure ("Classification is already in progress")), []⟩) ∧
    (∀ st : SvcState, st.isProcessing = false →
      (runInitialization st o T cfg).state = ⟨false, false⟩ ∧
      ∃ c Δ, (runInitialization st o T cfg).trace =
        (0, Effect.flagProcessing true) :: Δ ++
          [(c, Effect.flagProcessing false), (c, Effect.persistProcessingFalse)]) := by
  constructor
  · intro st h
    unfold runInitialization
    rw [if_pos h]
  · intro st h
    have h' : ¬(st.isProcessing = true) := by rw [h]; simp
    obtain ⟨Δ, hΔ, _⟩ := emitsOnly_runInner_any o T cfg ⟨0, [(0, Effect.flagProcessing true)]⟩
    unfold runInitialization
    rw [if_neg h']
    rcases hrun : runInner o T cfg ⟨0, [(0, Effect.flagProcessing true)]⟩ with ⟨⟨c, tr⟩, r⟩
    rw [hrun] at hΔ
    simp only at hΔ
    cases r with
    | ok a =>
      obtain ⟨⟩ := a
      simp only [hrun]
      exact ⟨by trivial, c, Δ, by simp [hΔ]⟩
    | error e =>
      cases e with
      | aborted =>
        simp only [hrun]
        exact ⟨by trivial, c, Δ, by simp [hΔ]⟩
      | failure msg =>
        simp only [hrun]
        exact ⟨by trivial, c, Δ, by simp [hΔ]⟩

/-- Witness for C1: a busy service rejects the run untouched; an idle one
ends with the flag reset, whatever happened in between. -/
theorem runInitialization_guard_and_cleanup_witness :
    runInitialization ⟨true, false⟩ oFix none cfgFix =
      ⟨⟨true, false⟩, .error (.failure ("Classification is already in progress")), []⟩ ∧
    (runInitialization ⟨false, false⟩ oFix none cfgFix).state = ⟨false, false⟩ ∧
    ∃ c Δ, (runInitialization ⟨false, false⟩ oFix none cfgFix).trace =
      (0, Effect.flagProcessing true) :: Δ ++
        [(c, Effect.flagProcessing false), (c, Effect.persistProcessingFalse)] := by
  refine ⟨?_, ?_⟩
  · exact (runInitialization_guard_and_cleanup oFix none cfgFix).1 ⟨true, false⟩ rfl
  · exact (runInitialization_guard_and_cleanup oFix none cfgFix).2 ⟨false, false⟩ rfl

/-! ## A guard-passing predefined text parses to at least one category -/

theorem splitChar_ne_nil (sep : Char) : ∀ l : List Char, splitChar sep l ≠ [] := by
  intro l
  induction l with
  | nil => simp [splitChar]
  | cons c cs ih =>
    unfold splitChar
    split
    · simp
    · split <;> simp

theorem splitChar_cons_eq (sep c : Char) (cs : List Char) (h : List Char)
    (t : List (List Char)) (hsc : splitChar sep cs = h :: t) :
    splitChar sep (c :: cs) = if c = sep then [] :: h :: t else (c :: h) :: t := by
  rw [splitChar, hsc]

theorem splitChar_chars (sep : Char) :
    ∀ (l part : List Char), part ∈ splitChar sep l → ∀ ch ∈ part, ch ∈ l := by
  intro l
  induction l with
  | nil =>
    intro part hp ch hch
    simp [splitChar] at hp
    subst hp
    simp at hch
  | cons c cs ih =>
    intro part hp ch hch
    cases hsc : splitChar sep cs with
    | nil => exact absurd hsc (splitChar_ne_nil sep cs)
    | cons h t =>
      rw [splitChar_cons_eq sep c cs h t hsc] at hp
      by_cases hcs : c = sep
      · rw [if_pos hcs] at hp
        rcases List.mem_cons.mp hp with hnil | hp'
        · subst hnil
          simp at hch
        · have : ch ∈ cs := ih part (by rw [hsc]; exact hp') ch hch
          exact List.mem_cons_of_mem _ this
      · rw [if_neg hcs] at hp
        rcases List.mem_cons.mp hp with hph | hpt
        · subst hph
          rcases List.mem_cons.mp hch with hc | hh
          · subst hc
            exact List.mem_cons_self _ _
          · have : ch ∈ cs := ih h (by rw [hsc]; exact List.mem_cons_self _ _) ch hh
            exact List.mem_cons_of_mem _ this
        · have : ch ∈ cs := ih part (by rw [hsc]; exact List.mem_cons_of_mem _ hpt) ch hch
          exact List.mem_cons_of_mem _ this

theorem splitChar_covers (sep : Char) :
    ∀ (l : List Char) (ch : Char), ch ∈ l → ch ≠ sep →
      ∃ part ∈ splitChar sep l, ch ∈ part := by
  intro l
  induction l with
  | nil => intro ch h; simp at h
  | cons c cs ih =>
    intro ch hch hne
    cases hsc : splitChar sep cs with
    | nil => exact absurd hsc (splitChar_ne_nil sep cs)
    | cons h t =>
      rcases List.mem_cons.mp hch with heq | hmem
      · subst heq
        rw [splitChar_cons_eq sep ch cs h t hsc, if_neg hne]
        exact ⟨ch :: h, List.mem_cons_self _ _, List.mem_cons_self _ _⟩
      · obtain ⟨part, hp, hchp⟩ := ih ch hmem hne
        rw [hsc] at hp
        rw [splitChar_cons_eq sep c cs h t hsc]
        by_cases hcs : c = sep
        · rw [if_pos hcs]
          exact ⟨part, List.mem_cons_of_mem _ hp, hchp⟩
        · rw [if_neg hcs]
          rcases List.mem_cons.mp hp with hph | hpt
          · subst hph
            exact ⟨c :: part, List.mem_cons_self _ _, List.mem_cons_of_mem _ hchp⟩
          · exact ⟨part, List.mem_cons_of_mem _ hpt, hchp⟩

theorem trim_nil_all_space (l : List Char) (h : (jsTrim (String.mk l)).length = 0) :
    ∀ ch ∈ l, jsIsSpace ch = true := by
  have h' : (((l.dropWhile jsIsSpace).reverse.dropWhile jsIsSpace).reverse).length = 0 := by
    simpa [jsTrim, String.length] using h
  have h2 : ((l.dropWhile jsIsSpace).reverse.dropWhile jsIsSpace).reverse = [] :=
    List.eq_nil_of_length_eq_zero h'
  have h3 : (l.dropWhile jsIsSpace).reverse.dropWhile jsIsSpace = [] := by
    simpa using congrArg List.reverse h2
  have h5 : ∀ x ∈ l.dropWhile jsIsSpace, jsIsSpace x := fun x hx =>
    List.dropWhile_eq_nil_iff.mp h3 x (List.mem_reverse.mpr hx)
  intro ch hch
  have htd : l.takeWhile jsIsSpace ++ l.dropWhile jsIsSpace = l :=
    List.takeWhile_append_dropWhile _ _
  rw [← htd] at hch
  rcases List.mem_append.mp hch with h | h
  · exact List.mem_takeWhile_imp h
  · exact h5 ch h

theorem trim_pos_exists_nonspace (s : String) (h : 0 < (jsTrim s).length) :
    ∃ ch ∈ s.data, jsIsSpace ch = false := by
  by_contra hall
  push_neg at hall
  have hsp : ∀ ch ∈ s.data, jsIsSpace ch = true := by
    intro ch hch
    have := hall ch hch
    revert this
    cases jsIsSpace ch <;> simp
  have hdrop : s.data.dropWhile jsIsSpace = [] := List.dropWhile_eq_nil_iff.mpr hsp
  rw [jsTrim, hdrop] at h
  simp [String.length] at h

theorem trim_pos_parse_ne_nil (text : String) (h : 0 < (jsTrim text).length) :
    parsePredefined text ≠ [] := by
  obtain ⟨ch, hch, hsp⟩ := trim_pos_exists_nonspace text h
  have hnl : ch ≠ ('\n') := by
    intro heq
    rw [heq] at hsp
    simp [jsIsSpace] at hsp
  obtain ⟨part, hpart, hchp⟩ := splitChar_covers ('\n') text.data ch hch hnl
  have hline : String.mk part ∈ jsSplit ('\n') text := by
    unfold jsSplit
    exact List.mem_map_of_mem String.mk hpart
  have hlen : ¬((jsTrim (String.mk part)).length = 0) := by
    intro h0
    have := trim_nil_all_space part h0 ch hchp
    rw [hsp] at this
    exact Bool.false_ne_true this
  have hmem : jsTrim (String.mk part) ∈ parsePredefined text := by
    unfold parsePredefined
    apply List.mem_filter.mpr
    refine ⟨List.mem_map_of_mem jsTrim hline, ?_⟩
    simp only [decide_eq_true_eq]
    omega
  exact List.ne_nil_of_mem hmem

/-! ## Run-level stepping lemmas (towards C4 and C8) -/

theorem emitsOnly_runInnerTail_any (o : Oracle) (T : AbortT) (cfg : Config)
    (allBookmarks : List Bm) :
    EmitsOnly (fun _ _ => True) (runInnerTail o T cfg allBookmarks) := by
  have hP : ∀ (c : Nat) (e : Effect), e ≠ Effect.llmCreateCategories →
      (fun (_ : Nat) (_ : Effect) => True) c e := fun _ _ _ => trivial
  unfold runInnerTail
  refine emitsOnly_bind (emitsOnly_checkAbort _ T) (fun _ => ?_)
  refine emitsOnly_bind (emitsOnly_checkAbort _ T) (fun _ => ?_)
  refine emitsOnly_bind (emitsOnly_fetchBatchContentGo o T _ hP) (fun sampleData => ?_)
  refine emitsOnly_bind (emitsOnly_checkAbort _ T) (fun _ => ?_)
  refine emitsOnly_bind (emitsOnly_categorizingStage_any o cfg _ (fun _ _ => trivial))
    (fun categories => ?_)
  exact emitsOnly_afterCategories o T cfg _ _ hP

/-- Whatever happens later, stage 2 issues the enumeration call with the
configured excluded-folder list, verbatim. -/
theorem runInner_emits_getAll (o : Oracle) (cfg : Config) (harc : o.archiveOk = true)
    (c : Nat) (tr : List (Nat × Effect)) :
    ∃ t, (t, Effect.getAllBookmarks cfg.excludedDirs) ∈
      (runInner o none cfg ⟨c, tr⟩).1.trace := by
  by_cases hemp : flattenBookmarks o.tree cfg.excludedDirs = []
  · rw [runInner_empty_enumeration harc hemp]
    exact ⟨c + 1, by simp⟩
  · rw [runInner_nonempty_enumeration harc hemp]
    obtain ⟨Δ, hΔ, _⟩ := emitsOnly_runInnerTail_any o none cfg
      ((flattenBookmarks o.tree cfg.excludedDirs).map BTree.toBm)
      ⟨c + 2, tr ++ [(c, Effect.createArchive),
        (c + 1, Effect.getAllBookmarks cfg.excludedDirs)]⟩
    exact ⟨c + 1, by rw [hΔ]; simp⟩

/-- With predefined categories, a functioning backup, a non-empty
enumeration and an available root folder, every parsed category is
materialized as a folder path below the root. -/
theorem runInner_materializes_predefined (o : Oracle) (cfg : Config) (rootId : Nat)
    (harc : o.archiveOk = true) (hroot : o.root = some rootId)
    (hne : flattenBookmarks o.tree cfg.excludedDirs ≠ [])
    (hpre : 0 < (jsTrim cfg.predefinedCategories).length)
    (c : Nat) (tr : List (Nat × Effect)) :
    ∀ cat ∈ parsePredefined cfg.predefinedCategories,
      ∃ t, (t, Effect.createFolderPathFx cat rootId) ∈
        (runInner o none cfg ⟨c, tr⟩).1.trace := by
  intro cat hcat
  have hplen : (parsePredefined cfg.predefinedCategories).length ≠ 0 := fun h0 =>
    trim_pos_parse_ne_nil cfg.predefinedCategories hpre (List.eq_nil_of_length_eq_zero h0)
  have hafter : ∀ (c' : Nat) (tr' : List (Nat × Effect)),
      ∃ t, (t, Effect.createFolderPathFx cat rootId) ∈
        (afterCategories o none cfg
          ((flattenBookmarks o.tree cfg.excludedDirs).map BTree.toBm)
          (parsePredefined cfg.predefinedCategories) ⟨c', tr'⟩).1.trace := by
    intro c' tr'
    obtain ⟨s₄, hccf, ⟨Δ₄, hΔ₄⟩, hmem⟩ := createCategoryFolders_effects o rootId
      (parsePredefined cfg.predefinedCategories)
      ⟨c' + 1, tr' ++ [(c', Effect.getDefaultFolder)]⟩
    have heq2 : afterCategories o none cfg
        ((flattenBookmarks o.tree cfg.excludedDirs).map BTree.toBm)
        (parsePredefined cfg.predefinedCategories) ⟨c', tr'⟩ =
        ((classifyingStage o none cfg
            ((flattenBookmarks o.tree cfg.excludedDirs).map BTree.toBm)
            (parsePredefined cfg.predefinedCategories) rootId >>= fun _ =>
          completionStage o cfg (parsePredefined cfg.predefinedCategories) rootId)) s₄ := by
      simp [afterCategories, M.bind, hroot, hccf]
    have hrest : EmitsOnly (fun _ _ => True)
        (classifyingStage o none cfg
            ((flattenBookmarks o.tree cfg.excludedDirs).map BTree.toBm)
            (parsePredefined cfg.predefinedCategories) rootId >>= fun _ =>
          completionStage o cfg (parsePredefined cfg.predefinedCategories) rootId) :=
      emitsOnly_bind (emitsOnly_classifyingStage o none cfg _ _ rootId (fun _ _ _ => trivial))
        (fun _ => emitsOnly_completionStage o cfg _ rootId (fun _ _ _ => trivial))
    obtain ⟨Δ₅, hΔ₅, _⟩ := hrest s₄
    obtain ⟨t, ht⟩ := hmem cat hcat
    rw [heq2]
    exact ⟨t, by rw [hΔ₅]; exact List.mem_append_left _ ht⟩
  rw [runInner_nonempty_enumeration harc hne]
  obtain ⟨c₁, Δ₁, res, hfetch⟩ := fetchBatchContent_none_ok o
    ((sampleArray o.shuffle ((flattenBookmarks o.tree cfg.excludedDirs).map BTree.toBm)
      cfg.initSampleRate).filter (fun b => b.url.isSome)) (c + 2)
    (tr ++ [(c, Effect.createArchive), (c + 1, Effect.getAllBookmarks cfg.excludedDirs)])
  have heq : runInnerTail o none cfg
      ((flattenBookmarks o.tree cfg.excludedDirs).map BTree.toBm)
      ⟨c + 2, tr ++ [(c, Effect.createArchive),
        (c + 1, Effect.getAllBookmarks cfg.excludedDirs)]⟩ =
      (categorizingStage o cfg res >>= fun categories =>
        afterCategories o none cfg
          ((flattenBookmarks o.tree cfg.excludedDirs).map BTree.toBm) categories)
      ⟨c₁, (tr ++ [(c, Effect.createArchive),
        (c + 1, Effect.getAllBookmarks cfg.excludedDirs)]) ++ Δ₁⟩ := by
    simp [runInnerTail, M.bind, hfetch]
  rw [heq, bind_ok (categorizingStage_pre_apply o cfg res hpre hplen _)]
  exact hafter c₁ _

/-- Every effect of a run whose configuration carries a non-empty trimmed
predefined list is something other than the category-generation LLM
call. -/
theorem runInitialization_noCC (o : Oracle) (T : AbortT) (cfg : Config) (st : SvcState)
    (hpre : 0 < (jsTrim cfg.predefinedCategories).length) :
    ∀ p ∈ (runInitialization st o T cfg).trace, p.2 ≠ Effect.llmCreateCategories := by
  unfold runInitialization
  by_cases hb : st.isProcessing = true
  · rw [if_pos hb]
    simp
  · rw [if_neg hb]
    obtain ⟨Δ, hΔ, hΔP⟩ := emitsOnly_runInner_noCC o T cfg hpre
      ⟨0, [(0, Effect.flagProcessing true)]⟩
    rcases hrun : runInner o T cfg ⟨0, [(0, Effect.flagProcessing true)]⟩ with ⟨⟨c, tr⟩, r⟩
    rw [hrun] at hΔ
    simp only at hΔ
    intro p hp
    have hp' : p ∈ ((0, Effect.flagProcessing true) :: Δ) ++
        [(c, Effect.flagProcessing false), (c, Effect.persistProcessingFalse)] := by
      cases r with
      | ok a =>
        obtain ⟨⟩ := a
        simp only [hrun] at hp
        simpa [hΔ] using hp
      | error e =>
        cases e with
        | aborted =>
          simp only [hrun] at hp
          simpa [hΔ] using hp
        | failure msg =>
          simp only [hrun] at hp
          simpa [hΔ] using hp
    rcases List.mem_append.mp hp' with h | h
    · rcases List.mem_cons.mp h with h0 | hΔm
      · subst h0
        simp
      · exact hΔP p hΔm
    · rcases List.mem_cons.mp h with h1 | h2
      · subst h1
        simp
      · rcases List.mem_cons.mp h2 with h3 | h4
        · subst h3
          simp
        · simp at h4

/-- A thrown stage failure surfaces as the run's error result. -/
theorem runInitialization_result_of_failure (o : Oracle) (T : AbortT) (cfg : Config)
    (st : SvcState) (hst : st.isProcessing = false) (msg : String)
    (h : (runInner o T cfg ⟨0, [(0, Effect.flagProcessing true)]⟩).2 =
      .error (.failure msg)) :
    (runInitialization st o T cfg).result = .error (.failure msg) := by
  unfold runInitialization
  rw [if_neg (by rw [hst]; simp)]
  rcases hrun : runInner o T cfg ⟨0, [(0, Effect.flagProcessing true)]⟩ with ⟨⟨c, tr⟩, r⟩
  rw [hrun] at h
  simp only at h
  subst h
  simp only [hrun]

/-! ## Predefined categories (C4) -/

/-- Counterexample to claim C4 as stated: in a run whose configuration
carries the predefined list `Tech\nNews`, the sampling and content-fetch
steps are NOT skipped — the trace of the full run contains a
`fetchContent` effect.  The source runs stages 3–4 unconditionally and
only consults `predefinedCategories` inside stage 5. -/
theorem predefined_run_still_fetches :
    ((runInitialization ⟨false, false⟩ oFix none cfgPreFix).trace.any
      (fun p => match p.2 with | Effect.fetchContent _ => true | _ => false)) = true := by
  decide

/-- Claim C4, amended: with a non-empty trimmed predefined list, (a) the
LLM category-generation call never appears in the run's trace; (b) a
predefined list parsing to zero categories is the fatal configuration
error `No valid predefined categories found`; (c) that error is in fact
unreachable, since non-empty trimmed text always parses to at least one
category; (d) the taxonomy materialized under the root folder is exactly
the predefined text parsed as newline-separated, trimmed, non-empty
lines: every parsed category gets a `createFolderPath` call.  (Sampling
and content fetching still run; see the counterexample.) -/
theorem predefined_taxonomy_bypasses_llm :
    (∀ (o : Oracle) (T : AbortT) (cfg : Config) (st : SvcState),
        0 < (jsTrim cfg.predefinedCategories).length →
        ∀ p ∈ (runInitialization st o T cfg).trace,
          p.2 ≠ Effect.llmCreateCategories) ∧
    (∀ (text : String) (s : RunSt), parsePredefined text = [] →
        parsePredefinedOrFail text s =
          (s, .error (.failure ("No valid predefined categories found")))) ∧
    (∀ text : String, 0 < (jsTrim text).length → parsePredefined text ≠ []) ∧
    (∀ (o : Oracle) (cfg : Config) (rootId c : Nat) (tr : List (Nat × Effect)),
        o.archiveOk = true → o.root = some rootId →
        flattenBookmarks o.tree cfg.excludedDirs ≠ [] →
        0 < (jsTrim cfg.predefinedCategories).length →
        ∀ cat ∈ parsePredefined cfg.predefinedCategories,
          ∃ t, (t, Effect.createFolderPathFx cat rootId) ∈
            (runInner o none cfg ⟨c, tr⟩).1.trace) :=
  ⟨fun o T cfg st hpre => runInitialization_noCC o T cfg st hpre,
   fun _ s h => parsePredefinedOrFail_nil h s,
   fun text h => trim_pos_parse_ne_nil text h,
   fun o cfg rootId c tr harc hroot hne hpre =>
     runInner_materializes_predefined o cfg rootId harc hroot hne hpre c tr⟩

/-- Witness for the amended C4 at the `Tech\nNews` fixture: no category
generation in the concrete run's trace; an all-whitespace predefined
text fails; `Tech\nNews` parses non-empty; both parsed categories are
materialized below root `1`. -/
theorem predefined_taxonomy_bypasses_llm_witness :
    (∀ p ∈ (runInitialization ⟨false, false⟩ oFix none cfgPreFix).trace,
        p.2 ≠ Effect.llmCreateCategories) ∧
    (parsePredefinedOrFail (" \n ") ⟨0, []⟩ =
      (⟨0, []⟩, .error (.failure ("No valid predefined categories found")))) ∧
    parsePredefined ("Tech\nNews") ≠ [] ∧
    (∀ cat ∈ parsePredefined cfgPreFix.predefinedCategories,
      ∃ t, (t, Effect.createFolderPathFx cat 1) ∈
        (runInner oFix none cfgPreFix ⟨0, []⟩).1.trace) :=
  ⟨predefined_taxonomy_bypasses_llm.1 oFix none cfgPreFix ⟨false, false⟩ (by decide),
   predefined_taxonomy_bypasses_llm.2.1 (" \n ") ⟨0, []⟩ (by decide),
   predefined_taxonomy_bypasses_llm.2.2.1 ("Tech\nNews") (by decide),
   predefined_taxonomy_bypasses_llm.2.2.2 oFix cfgPreFix 1 0 [] rfl rfl
     (fun h => List.cons_ne_nil _ _ h) (by decide)⟩

/-! ## Enumeration and excluded folders (C8, amended) -/

/-- Claim C8, amended: (1) a subtree rooted at a folder whose title is in
the excluded list contributes nothing to the enumeration; (2) the
enumeration is issued with the configured excluded-folder list verbatim —
the engine adds nothing to it, so `Backup` and `Failures` are only
excluded when the configuration lists them; (3) an enumeration yielding
zero bookmarks makes the run end with the fatal error
`No bookmarks found to classify`. -/
theorem enumeration_excludes_configured_only :
    (∀ (ex : List String) (i : Nat) (t : String) (cs : List BTree),
        ex.contains t = true → flattenGo ex (BTree.node i t none cs) = []) ∧
    (∀ (o : Oracle) (cfg : Config) (c : Nat) (tr : List (Nat × Effect)),
        o.archiveOk = true →
        ∃ t, (t, Effect.getAllBookmarks cfg.excludedDirs) ∈
          (runInner o none cfg ⟨c, tr⟩).1.trace) ∧
    (∀ (o : Oracle) (cfg : Config) (st : SvcState),
        st.isProcessing = false → o.archiveOk = true →
        flattenBookmarks o.tree cfg.excludedDirs = [] →
        (runInitialization st o none cfg).result =
          .error (.failure ("No bookmarks found to classify"))) := by
  refine ⟨fun ex i t cs h => by
      have h' : t ∈ ex := by simpa using h
      simp [flattenGo, h'],
    fun o cfg c tr harc => runInner_emits_getAll o cfg harc c tr,
    fun o cfg st hst harc hemp => ?_⟩
  apply runInitialization_result_of_failure o none cfg st hst
  rw [runInner_empty_enumeration harc hemp 0 [(0, Effect.flagProcessing true)]]

/-- Witness for the amended C8: an excluded folder titled `X` flattens to
nothing; the fixture run enumerates with the configured (empty) excluded
list; an oracle with an empty tree ends in the zero-bookmarks fatal
error. -/
theorem enumeration_excludes_configured_only_witness :
    flattenGo [("X")] (BTree.node 1 ("X") none []) = [] ∧
    (∃ t, (t, Effect.getAllBookmarks cfgFix.excludedDirs) ∈
      (runInner oFix none cfgFix ⟨0, []⟩).1.trace) ∧
    (runInitialization ⟨false, false⟩ { oFix with tree := [] } none cfgFix).result =
      .error (.failure ("No bookmarks found to classify")) :=
  ⟨enumeration_excludes_configured_only.1 [("X")] 1 ("X") [] (by decide),
   enumeration_excludes_configured_only.2.1 oFix cfgFix 0 [] rfl,
   enumeration_excludes_configured_only.2.2 { oFix with tree := [] } cfgFix
     ⟨false, false⟩ rfl rfl rfl⟩

end BookmarkClassifier

